import Mathlib

/-!
Verification development for the `foundryvtt_wod_v20_ru` Foundry VTT
localization module.

The module is a collection of event-driven DOM/UI patch routines.  This file
gives a shallow embedding of the parts of the code the specification makes
claims about:

* the movement/jump rescaling constants and arithmetic
  (`scripts/constants/movement.js`, `scripts/hooks/movement-jump-quarter.js`,
  and the quarter-scaling variant);
* the shared debug logger (`scripts/logger/core.js`);
* the template-loader wrappers (`scripts/debug/patch-template-loaders` variant);
* the module translation loader and its `deepMerge` (`scripts/init-module.js`);
* the per-user saved sheet position machinery
  (`scripts/hooks/actor-sheet-default-position.js`);
* the DOM mutation routines: `langRU` class injection (`scripts/ru-width.js`),
  the item-sheet checkbox restructuring (`scripts/hooks/item-config-checkboxes.js`),
  the notes-level patch (`notes-level` hook) and the combat full-text
  restoration hook.

Modelling conventions:

* JavaScript numbers are modelled as `Rat`; a value that may be `undefined`,
  missing or non-finite (`NaN`) is modelled as `Option Rat` with `none` for
  the absent/non-finite case.  Overflow and float rounding play no role in any
  claim (all relevant arithmetic is exact at the scales involved).
* Functions that may throw are modelled with `Except Unit` (the thrown value
  itself is only ever stringified into log text, which no claim depends on).
* Host-side behaviour the module calls into (Foundry `Application.setPosition`
  merging the given fields into `app.position`, `game.i18n.localize` returning
  the key when no translation exists) is modelled by small explicit functions,
  each documented at its definition.
* DOM trees are modelled by `Dom.DNode`, a rose tree of elements and text
  nodes carrying the attributes the embedded routines inspect (tag, class
  list, `name`, `type`).  Node identifiers implement element references and
  moves; all concrete trees in this file use distinct identifiers, matching
  real DOM object identity.
* Console/log output is modelled as an explicit list of emitted lines; claims
  about "emits nothing / exactly one line" are statements about that list.
-/

namespace WodRu

/-! ## A small JavaScript value universe

Used for JSON data (translation files), opaque function arguments and the
`safe` helper default.  Functions and circular values are not representable;
the one place where stringification of such values matters (the logger
fallback) models the outcome of `JSON.stringify` explicitly instead.
-/

inductive JsVal where
  | undef
  | jnull
  | jbool (b : Bool)
  | jnum (q : Rat)
  | jstr (s : String)
  | jarr (elems : List JsVal)
  | jobj (fields : List (String × JsVal))

/-- Rough model of JS `String(v)`, used only to build log text (no claim
depends on its exact output).  Number formatting is approximated by the `Rat`
printer. -/
def jsValToString : JsVal → String
  | .undef => "undefined"
  | .jnull => "null"
  | .jbool b => if b then "true" else "false"
  | .jnum q => toString q
  | .jstr s => s
  | .jarr _ => ""
  | .jobj _ => "[object Object]"

/-- The JS `trim()` whitespace class on the characters that occur here
(space, tab, line and form feeds, carriage return, vertical tab and the
no-break space U+00A0, which JS also treats as whitespace). -/
def isJsWhitespace (c : Char) : Bool :=
  c == ' ' || c == '\t' || c == '\n' || c == '\r' ||
    c == Char.ofNat 11 || c == Char.ofNat 12 || c == Char.ofNat 160

/-- JS `String.prototype.trim`.  (Implemented on the character list so that
concrete runs reduce inside the kernel.) -/
def jsTrim (s : String) : String :=
  String.mk (((s.toList.dropWhile isJsWhitespace).reverse.dropWhile isJsWhitespace).reverse)

/-! ## Movement jump constants and rescaling

From `scripts/constants/movement.js` (the hardcoded RU display constants) and
the two movement hooks.  The werewolf base jump values quoted in the constants
file header (and in the claim) are the system values from
`CombatHelper.CalculateMovement`:
Default (2,4), Glabro (3,4), Crinos (4,5), Hispo (5,6), Lupus (4,7).
-/

namespace Movement

structure JumpPair where
  vjump : Rat
  hjump : Rat
deriving DecidableEq

/-- `export const JUMP_DEFAULT = { vjump: 0.5, hjump: 1.0 }`. -/
def JUMP_DEFAULT : JumpPair := ⟨0.5, 1.0⟩

/-- `export const JUMP_GLABRO = { vjump: 0.8, hjump: 1.0 }`. -/
def JUMP_GLABRO : JumpPair := ⟨0.8, 1.0⟩

/-- `export const JUMP_CRINOS = { vjump: 1.0, hjump: 1.3 }`. -/
def JUMP_CRINOS : JumpPair := ⟨1.0, 1.3⟩

/-- `export const JUMP_HISPO = { vjump: 1.3, hjump: 1.5 }`. -/
def JUMP_HISPO : JumpPair := ⟨1.3, 1.5⟩

/-- `export const JUMP_LUPUS = { vjump: 1.0, hjump: 1.8 }`. -/
def JUMP_LUPUS : JumpPair := ⟨1.0, 1.8⟩

/-- System base jump values per shape, as documented in the header of
`scripts/constants/movement.js` and quoted by the claim. -/
def baseJump : List (JumpPair × JumpPair) :=
  [ (⟨2, 4⟩, JUMP_DEFAULT)
  , (⟨3, 4⟩, JUMP_GLABRO)
  , (⟨4, 5⟩, JUMP_CRINOS)
  , (⟨5, 6⟩, JUMP_HISPO)
  , (⟨4, 7⟩, JUMP_LUPUS) ]

/-- JS `Math.round` on the (nonnegative) values that occur here:
round half away from zero, i.e. `floor (q + 1/2)`. -/
def jsMathRound (q : Rat) : Int := ⌊q + 1 / 2⌋

/-- `roundToOneDecimal` from the quarter-scaling hook:
`Math.round(value * 10) / 10`. -/
def roundToOneDecimal (value : Rat) : Rat := (jsMathRound (value * 10) : Rat) / 10

/-- `actor.system.movement` restricted to the two fields the hooks touch.
`none` models a missing / non-numeric / non-finite field. -/
structure MovementRec where
  vjump : Option Rat
  hjump : Option Rat
deriving DecidableEq

/-- `adjustMovementInPlace` from the quarter-scaling hook: each finite numeric
jump field is replaced by `roundToOneDecimal (v / 4)`.  (The source assigns
only when the new value differs; the resulting record is the same.) -/
def adjustMovementInPlace (m : MovementRec) : MovementRec :=
  { vjump :=
      match m.vjump with
      | some v => some (roundToOneDecimal (v / 4))
      | none => none
  , hjump :=
      match m.hjump with
      | some h => some (roundToOneDecimal (h / 4))
      | none => none }

/-- Werewolf shape activity flags read by `pickJumpConstantsForActor`. -/
structure Shapes where
  glabro : Bool
  crinos : Bool
  hispo : Bool
  lupus : Bool
deriving DecidableEq

/-- `pickJumpConstantsForActor` from `movement-jump-quarter.js`: first active
shape in source order wins, default otherwise. -/
def pickJumpConstantsForActor (s : Shapes) : JumpPair :=
  if s.glabro then JUMP_GLABRO
  else if s.crinos then JUMP_CRINOS
  else if s.hispo then JUMP_HISPO
  else if s.lupus then JUMP_LUPUS
  else JUMP_DEFAULT

/-- `applyJumpOverrideInPlace`: overwrite both jump fields with the selected
constants (assignment is unconditional in effect; the source skips the store
when the value is already equal). -/
def applyJumpOverrideInPlace (s : Shapes) (_m : MovementRec) : MovementRec :=
  let target := pickJumpConstantsForActor s
  { vjump := some target.vjump, hjump := some target.hjump }

end Movement

/-! ## Shared logger core (`scripts/logger/core.js`) -/

namespace LoggerCore

def MOD_ID : String := "foundryvtt_wod_v20_ru"

def TAG : String := "[wod-v20-ru][debug]"

/-- Host state the logger reads.  `debugSetting = none` models
`game.settings.get` throwing (settings not registered yet);
`perfNowFixed = none` models the `performance.now()` access throwing. -/
structure LogEnv where
  debugSetting : Option Bool
  perfNowFixed : Option String
deriving DecidableEq

/-- `isDebugEnabled`: `!!game.settings.get(MOD_ID, "debugLogging")`,
`false` when the read throws. -/
def isDebugEnabled (e : LogEnv) : Bool :=
  match e.debugSetting with
  | some b => b
  | none => false

/-- `now()`: the `t+<millis>ms` label, `t+?` when the probe throws. -/
def now (e : LogEnv) : String :=
  match e.perfNowFixed with
  | some t => "t+" ++ t ++ "ms"
  | none => "t+?"

/-- Observable stringification behaviour of a log payload:
what `JSON.stringify(data)` and `String(data)` would do
(either can throw, e.g. on circular structures). -/
structure JsData where
  stringifyRes : Except Unit String
  toStringRes : Except Unit String

/-- `toJson`: empty for `undefined`, else `JSON.stringify` with a
`String(data)` fallback, and a fixed marker when both throw. -/
def toJson : Option JsData → String
  | none => ""
  | some d =>
    match d.stringifyRes with
    | .ok s => s
    | .error _ =>
      match d.toStringRes with
      | .ok s => s
      | .error _ => "[unstringifiable]"

structure ConsoleLine where
  level : String
  text : String

/-- The internal `log(level, msg, data)` dispatcher: gate on the debug
setting, then emit exactly one console line. -/
def log (e : LogEnv) (level msg : String) (data : Option JsData) : List ConsoleLine :=
  if isDebugEnabled e then
    let pre := TAG ++ " " ++ now e ++ " " ++ msg
    match data with
    | none => [⟨level, pre⟩]
    | some d => [⟨level, pre ++ " " ++ toJson (some d)⟩]
  else []

/-- `safe(fn, fallback)`: run the thunk, return the fallback if it throws.
The thunk is modelled by its outcome.  (The `warn` call in the catch block
only emits a log line; it cannot throw in this model, matching the logger
whose own reads are individually guarded.) -/
def safe {α : Type} (fn : Except Unit α) (fallback : α) : α :=
  match fn with
  | .ok v => v
  | .error _ => fallback

/-- `safe(fn)` with the default parameter value `fallback = undefined`. -/
def safeDefault (fn : Except Unit JsVal) : JsVal := safe fn JsVal.undef

end LoggerCore

/-! ## Template loader wrappers (diagnostic patcher) -/

namespace TemplatePatch

/-- Log output produced by the wrappers (shape only; the claims are about the
wrapped call, not the log text). -/
inductive PatchLog where
  | getTemplateLine (label : String) (path : JsVal)
  | loadTemplatesCount (label : String) (count : Nat)
  | loadTemplatesOther (label : String) (paths : String)

/-- `patchedGetTemplate` built by `patchTemplateFns`: log, then
`return original.call(this, path, ...rest)`.  The original function is
modelled as a function of its `this` binding and its arguments; the wrapper
result is the pair (emitted log lines, value returned). -/
def patchedGetTemplate {ρ : Type} (label : String)
    (original : JsVal → JsVal → List JsVal → ρ)
    (this path : JsVal) (rest : List JsVal) : List PatchLog × ρ :=
  ([.getTemplateLine label path], original this path rest)

/-- `patchedLoadTemplates` built by `patchTemplateFns`: log (array inputs log
their count, anything else its string form), then
`return original.call(this, paths, ...rest)`. -/
def patchedLoadTemplates {ρ : Type} (label : String)
    (original : JsVal → JsVal → List JsVal → ρ)
    (this paths : JsVal) (rest : List JsVal) : List PatchLog × ρ :=
  let line :=
    match paths with
    | .jarr es => PatchLog.loadTemplatesCount label es.length
    | p => PatchLog.loadTemplatesOther label (jsValToString p)
  ([line], original this paths rest)

end TemplatePatch

/-! ## Module translation loader (`scripts/init-module.js`) -/

namespace ModuleI18n

/-- Truthiness-and-type test used by `deepMerge`:
`v && typeof v === "object" && !Array.isArray(v)`. -/
def isMergeableObj : JsVal → Bool
  | .jobj _ => true
  | _ => false

def setFieldL : List (String × JsVal) → String → JsVal → List (String × JsVal)
  | [], k, x => [(k, x)]
  | (k2, v2) :: rest, k, x =>
    if k2 = k then (k, x) :: rest else (k2, v2) :: setFieldL rest k x

/-- `target[k] = x` on a JS object (existing key overwritten in place, new key
appended).  Assignment on a non-object target is a no-op; the source only ever
merges into the (object) translation store.  Arrays are modelled without
expando properties. -/
def setField (v : JsVal) (k : String) (x : JsVal) : JsVal :=
  match v with
  | .jobj fs => .jobj (setFieldL fs k x)
  | other => other

def lookupField : List (String × JsVal) → String → Option JsVal
  | [], _ => none
  | (k2, v2) :: rest, k => if k2 = k then some v2 else lookupField rest k

/-- `target[k]` read: `none` models `undefined`. -/
def getField (v : JsVal) (k : String) : Option JsVal :=
  match v with
  | .jobj fs => lookupField fs k
  | _ => none

/-- The target selected for a recursive merge step:
`if (!target[k] || typeof target[k] !== "object") target[k] = {}`.
(The source keeps a truthy `typeof`-object value; in this model arrays carry
no named fields, so they behave as empty objects there.) -/
def objBase (tk : Option JsVal) : JsVal :=
  match tk with
  | some t => if isMergeableObj t then t else .jobj []
  | none => .jobj []

/-- `Object.entries` of a string source yields indexed characters; each is a
one-character string, never an object, so a plain assignment loop suffices. -/
def mergeChars (target : JsVal) (i : Nat) : List Char → JsVal
  | [] => target
  | c :: rest => mergeChars (setField target (toString i) (.jstr (String.mk [c]))) (i + 1) rest

mutual

/-- `deepMerge(target, source)` from `init-module.js`: iterate
`Object.entries(source ?? {})`; plain values are assigned, object values are
merged recursively into `target[k]` (reset to `{}` when not a truthy object).
`source ?? {}` makes nullish sources a no-op; `Object.entries` of numbers and
booleans is empty, of arrays it is the indexed elements, of strings the
indexed characters. -/
def deepMerge (target : JsVal) : JsVal → JsVal
  | .jobj fs => mergeFields target fs
  | .jarr es => mergeElems target 0 es
  | .jstr s => mergeChars target 0 s.toList
  | _ => target

def mergeFields (target : JsVal) : List (String × JsVal) → JsVal
  | [] => target
  | (k, v) :: rest =>
    let t1 :=
      if isMergeableObj v then setField target k (deepMerge (objBase (getField target k)) v)
      else setField target k v
    mergeFields t1 rest

def mergeElems (target : JsVal) (i : Nat) : List JsVal → JsVal
  | [] => target
  | v :: rest =>
    let k := toString i
    let t1 :=
      if isMergeableObj v then setField target k (deepMerge (objBase (getField target k)) v)
      else setField target k v
    mergeElems t1 (i + 1) rest

end

def ruJsonPath : String := "lang/module-ru.json"

def enJsonPath : String := "lang/module-en.json"

/-- The file `loadModuleTranslations` picks:
`lang === "ru" ? "lang/module-ru.json" : "lang/module-en.json"`. -/
def chosenPath (lang : String) : String :=
  if lang = "ru" then ruJsonPath else enJsonPath

/-- Host fetch-and-parse behaviour of `loadJson`, per path.  An `error` models
a rejected fetch / non-ok status / JSON parse failure. -/
structure FetchEnv where
  fetchJson : String → Except Unit JsVal

/-- `getLang()`: `game.i18n.lang ?? document.documentElement.lang ?? "en"`. -/
def getLang (gameLang docLang : Option String) : String :=
  match gameLang with
  | some l => l
  | none =>
    match docLang with
    | some l => l
    | none => "en"

/-- `loadModuleTranslations`: try the chosen file, merge it into the i18n
store; on failure, load and merge `lang/module-en.json`.  Returns the new
store together with the path actually loaded; a failure of the fallback load
propagates (it is caught by the hook callback, outside this function). -/
def loadModuleTranslations (env : FetchEnv) (lang : String) (store : JsVal) :
    Except Unit (JsVal × String) :=
  match env.fetchJson (chosenPath lang) with
  | .ok data => .ok (deepMerge store data, chosenPath lang)
  | .error _ =>
    match env.fetchJson enJsonPath with
    | .ok data => .ok (deepMerge store data, enJsonPath)
    | .error e => .error e

end ModuleI18n

/-! ## Saved sheet positions (`scripts/hooks/actor-sheet-default-position.js`)

The per-user flag `actorSheetPositions` maps a sheet class name to a saved
position record.  The render hook wraps `app.setPosition` with a debounced
persister and then runs `applySavedOrHardDefault`.

The runtime marker `__wodruApplyingDefaultPos__` is set around the module
initiated `setPosition` calls and reset synchronously in the `finally` block;
the debounced persist timer fires later (250 ms), so by the time the persister
reads the marker it is always `false` again.  The embedding reflects this
actual firing order.
-/

namespace SheetPos

def DEFAULT_LEFT : Rat := 100

def DEFAULT_TOP : Rat := 5

def CLAMP_MARGIN : Rat := 10

/-- `clamp(v, min, max)`: `none` models a non-finite input (mapped to the
minimum); otherwise `Math.min(Math.max(n, min), max)`. -/
def clamp (v : Option Rat) (vmin vmax : Rat) : Rat :=
  match v with
  | none => vmin
  | some n => min (max n vmin) vmax

/-- What `getSavedPosition` returns for a found record: numeric fields coerced
with `Number(...)` (`none` = missing / non-finite) and the two markers as
strict `=== true` booleans. -/
structure SRec where
  left : Option Rat
  top : Option Rat
  width : Option Rat
  height : Option Rat
  migratedDefaultV2 : Bool
  userMovedV1 : Bool
deriving DecidableEq

/-- A value stored under a sheet class key in the flag map, as far as
`getSavedPosition` inspects it.  `fobj` carries the `Number(...)`-coerced
field reads (`none` = missing or non-finite) and the raw marker fields;
`fnonobj` stands for any falsy or non-`typeof`-object stored value. -/
inductive FlagStored where
  | fobj (left top width height : Option Rat)
      (migratedDefaultV2 userMovedV1 : Option Bool)
  | fnonobj
deriving DecidableEq

/-- `getSavedPosition` on the value found under the sheet class key (`none`
input = key missing, map unreadable, or flag read threw): any non-object
stored value yields `null`; otherwise the coerced record with `=== true`
markers. -/
def getSavedPosition : Option FlagStored → Option SRec
  | some (.fobj l t w h mg um) =>
    some
      { left := l, top := t, width := w, height := h
      , migratedDefaultV2 := mg == some true
      , userMovedV1 := um == some true }
  | _ => none

/-- The record passed to `setSavedPosition` by every caller: the result of
`normalizeAppPosition` (finite `left`/`top`, optional `width`/`height`) plus
the two markers the caller sets.  A `false` marker models both an absent key
and an explicit `false` (the payload builder treats them alike). -/
structure WRec where
  left : Rat
  top : Rat
  width : Option Rat
  height : Option Rat
  migratedDefaultV2 : Bool
  userMovedV1 : Bool
deriving DecidableEq

/-- The payload object `setSavedPosition` builds and stores: `left`/`top`
always, `width`/`height` only when finite, each marker only when `=== true`. -/
def setSavedPositionPayload (pos : WRec) : FlagStored :=
  .fobj (some pos.left) (some pos.top) pos.width pos.height
    (if pos.migratedDefaultV2 then some true else none)
    (if pos.userMovedV1 then some true else none)

def setEntry : List (String × FlagStored) → String → FlagStored → List (String × FlagStored)
  | [], k, x => [(k, x)]
  | (k2, v2) :: rest, k, x =>
    if k2 = k then (k, x) :: rest else (k2, v2) :: setEntry rest k x

def lookupEntry : List (String × FlagStored) → String → Option FlagStored
  | [], _ => none
  | (k2, v2) :: rest, k => if k2 = k then some v2 else lookupEntry rest k

/-- `setSavedPosition(sheetClass, pos)`: deep-clone the current map (`{}` when
missing or not an object), store the payload under the sheet class key, write
the map back. -/
def setSavedPosition (current : Option (List (String × FlagStored)))
    (sheetClass : String) (pos : WRec) : List (String × FlagStored) :=
  setEntry (current.getD []) sheetClass (setSavedPositionPayload pos)

/-- `app.position`, fields `none` when missing / non-finite. -/
structure AppPos where
  left : Option Rat
  top : Option Rat
  width : Option Rat
  height : Option Rat
deriving DecidableEq

/-- `normalizeAppPosition(app)`: non-finite `left`/`top` become `0`,
non-finite `width`/`height` become absent.  The source result object carries
no marker keys; callers set them afterwards, so both markers start `false`
(= absent) here. -/
def normalizeAppPosition (p : AppPos) : WRec :=
  { left := p.left.getD 0
  , top := p.top.getD 0
  , width := p.width
  , height := p.height
  , migratedDefaultV2 := false
  , userMovedV1 := false }

/-- Argument object of a `setPosition` call; a `none` field was not included
in the object literal. -/
structure PosArg where
  left : Option Rat
  top : Option Rat
  width : Option Rat
  height : Option Rat
deriving DecidableEq

/-- Host behaviour of Foundry `Application.setPosition`: fields present in the
argument replace the corresponding `app.position` fields, the others are kept.
(Foundry may additionally constrain the values; no claim depends on that, and
the module reads back whatever the host stored via `normalizeAppPosition`.) -/
def hostSetPosition (p : AppPos) (a : PosArg) : AppPos :=
  { left := match a.left with | some v => some v | none => p.left
  , top := match a.top with | some v => some v | none => p.top
  , width := match a.width with | some v => some v | none => p.width
  , height := match a.height with | some v => some v | none => p.height }

/-- Inputs `applySavedOrHardDefault` reads from the host: viewport size
(`getViewportSize`) and the sheet metrics (`getSheetMetrics`, whose
rect/position/options/constant fallback chain is modelled as its resolved
result). -/
structure RenderEnv where
  viewportW : Rat
  viewportH : Rat
  sheetW : Rat
  sheetH : Rat
deriving DecidableEq

/-- The clamped hardcoded default `left`:
`clamp(DEFAULT_LEFT, CLAMP_MARGIN, max(CLAMP_MARGIN, vw - sheet.width - CLAMP_MARGIN))`. -/
def targetLeft (env : RenderEnv) : Rat :=
  clamp (some DEFAULT_LEFT) CLAMP_MARGIN
    (max CLAMP_MARGIN (env.viewportW - env.sheetW - CLAMP_MARGIN))

/-- The clamped hardcoded default `top`. -/
def targetTop (env : RenderEnv) : Rat :=
  clamp (some DEFAULT_TOP) CLAMP_MARGIN
    (max CLAMP_MARGIN (env.viewportH - env.sheetH - CLAMP_MARGIN))

/-- Trace of one `applySavedOrHardDefault` run: the final `app.position`, the
`setPosition` calls made (each tagged with the value of the
`__wodruApplyingDefaultPos__` marker during the call), and the record passed
to the awaited `setSavedPosition` (absent on the two apply-saved paths). -/
structure ApplyResult where
  app : AppPos
  calls : List (Bool × PosArg)
  directWrite : Option WRec
deriving DecidableEq

/-- The shared tail of the migration and first-save branches: flagged
`setPosition` to the clamped default, then persist
`normalizeAppPosition(app)` with `migratedDefaultV2 := true`,
`userMovedV1 := false`.  `wh` carries the saved `width`/`height` spread into
the call by the migration branch (`(none, none)` on the no-saved path). -/
def applyHardDefault (env : RenderEnv) (app0 : AppPos) (wh : Option Rat × Option Rat) :
    ApplyResult :=
  let arg : PosArg := ⟨some (targetLeft env), some (targetTop env), wh.1, wh.2⟩
  let app1 := hostSetPosition app0 arg
  let pos :=
    { normalizeAppPosition app1 with migratedDefaultV2 := true, userMovedV1 := false }
  ⟨app1, [(true, arg)], some pos⟩

/-- `applySavedOrHardDefault(app, sheetClass, html)`, branch for branch:

* saved record with finite `left`/`top` and `userMovedV1 === true`:
  apply the saved position (width/height only when finite) and return;
* same but not yet migrated: one-time migration to the clamped hardcoded
  default, persisting a record with `migratedDefaultV2 = true`;
* already migrated: apply the saved position and return;
* no usable saved record: apply the clamped hardcoded default and persist it.
-/
def applySavedOrHardDefault (env : RenderEnv) (app0 : AppPos) (saved : Option SRec) :
    ApplyResult :=
  match saved with
  | some r =>
    match r.left, r.top with
    | some l, some t =>
      if r.userMovedV1 then
        let arg : PosArg := ⟨some l, some t, r.width, r.height⟩
        ⟨hostSetPosition app0 arg, [(false, arg)], none⟩
      else if ¬ r.migratedDefaultV2 then
        applyHardDefault env app0 (r.width, r.height)
      else
        let arg : PosArg := ⟨some l, some t, r.width, r.height⟩
        ⟨hostSetPosition app0 arg, [(false, arg)], none⟩
    | _, _ => applyHardDefault env app0 (none, none)
  | none => applyHardDefault env app0 (none, none)

/-- The debounced persister installed by `wrapSetPosition`, as of the moment
the timer fires: module-driven calls (marker still set) persist with
`migratedDefaultV2 := true`; anything else is treated as a user move and
persists with `userMovedV1 := true` (the migration marker is not forced). -/
def wrapperPersistPos (appFinal : AppPos) (isApplyingDefault : Bool) : WRec :=
  let pos := normalizeAppPosition appFinal
  if isApplyingDefault then { pos with migratedDefaultV2 := true, userMovedV1 := false }
  else { pos with userMovedV1 := true }

/-- Whether `applySavedOrHardDefault` takes the one-time migration branch on
this saved record: a usable saved position with `userMovedV1 !== true` and
`migratedDefaultV2 !== true`. -/
def tookMigrationOf : Option SRec → Bool
  | some r =>
    match r.left, r.top with
    | some _, some _ => !r.userMovedV1 && !r.migratedDefaultV2
    | _, _ => false
  | none => false

/-- One full render of the sheet for a fixed sheet class, as the stored flag
value evolves: read the saved record, run `applySavedOrHardDefault` (whose
awaited write lands first), then the debounced persist (the `finally` block
has already reset the runtime marker, so it runs the user-move branch).
Returns the final stored value and whether the one-time migration branch ran. -/
def renderStep (env : RenderEnv) (app0 : AppPos) (st : Option FlagStored) :
    Option FlagStored × Bool :=
  let saved := getSavedPosition st
  let res := applySavedOrHardDefault env app0 saved
  let timerPos := wrapperPersistPos res.app false
  (some (setSavedPositionPayload timerPos), tookMigrationOf saved)

/-- A user move/resize: the host calls the wrapped `setPosition`; once the
debounce elapses the position is persisted with `userMovedV1 := true`. -/
def userMoveStep (app1 : AppPos) : Option FlagStored :=
  some (setSavedPositionPayload (wrapperPersistPos app1 false))

/-- Events that touch the stored record of one sheet class for one user. -/
inductive SheetEv where
  | render (env : RenderEnv) (app0 : AppPos)
  | userMove (app1 : AppPos)

def step (st : Option FlagStored) : SheetEv → Option FlagStored × Bool
  | .render env app0 => renderStep env app0 st
  | .userMove app1 => (userMoveStep app1, false)

/-- Number of events in a trace on which the one-time migration branch ran. -/
def migCount (st : Option FlagStored) : List SheetEv → Nat
  | [] => 0
  | e :: rest =>
    let r := step st e
    (if r.2 then 1 else 0) + migCount r.1 rest

end SheetPos

/-! ## DOM model

A rose tree of elements and text nodes with the attributes the embedded
routines inspect.  `nid` models object identity of DOM nodes: references held
by the routines are node ids, and moving a node is remove-then-insert of the
subtree with that id.  All concrete trees in this file use distinct ids.
-/

namespace Dom

inductive DNode where
  | elem (nid : Nat) (tag : String) (classes : List String)
      (nameAttr : String) (typeAttr : String) (kids : List DNode)
  | txt (nid : Nat) (content : String)

def nidOf : DNode → Nat
  | .elem i _ _ _ _ _ => i
  | .txt i _ => i

def classesOf : DNode → List String
  | .elem _ _ cs _ _ _ => cs
  | .txt _ _ => []

def kidsOf : DNode → List DNode
  | .elem _ _ _ _ _ ks => ks
  | .txt _ _ => []

mutual

/-- First node (pre-order, including the root of the searched subtree)
satisfying the predicate. -/
def firstMatchN (p : DNode → Bool) (n : DNode) : Option Nat :=
  if p n then some (nidOf n)
  else
    match n with
    | .elem _ _ _ _ _ ks => firstMatchL p ks
    | .txt _ _ => none

def firstMatchL (p : DNode → Bool) : List DNode → Option Nat
  | [] => none
  | k :: ks =>
    match firstMatchN p k with
    | some r => some r
    | none => firstMatchL p ks

end

mutual

/-- Subtree rooted at the node with the given id. -/
def findNode (n : DNode) (j : Nat) : Option DNode :=
  if nidOf n = j then some n
  else
    match n with
    | .elem _ _ _ _ _ ks => findNodeL ks j
    | .txt _ _ => none

def findNodeL : List DNode → Nat → Option DNode
  | [], _ => none
  | k :: ks, j =>
    match findNode k j with
    | some r => some r
    | none => findNodeL ks j

end

/-- `isConnected` relative to the modelled root. -/
def containsId (n : DNode) (j : Nat) : Bool := (findNode n j).isSome

mutual

/-- Apply `f` to the node with the given id (no descent into the result). -/
def updateAtN (j : Nat) (f : DNode → DNode) (n : DNode) : DNode :=
  if nidOf n = j then f n
  else
    match n with
    | .elem i t cs nm ty ks => .elem i t cs nm ty (updateAtL j f ks)
    | .txt i s => .txt i s

def updateAtL (j : Nat) (f : DNode → DNode) : List DNode → List DNode
  | [] => []
  | k :: ks => updateAtN j f k :: updateAtL j f ks

end

mutual

/-- Remove every node with the given id (unique in all trees used here). -/
def removeIdN (j : Nat) : DNode → DNode
  | .elem i t cs nm ty ks => .elem i t cs nm ty (removeIdL j ks)
  | .txt i s => .txt i s

def removeIdL (j : Nat) : List DNode → List DNode
  | [] => []
  | k :: ks => if nidOf k = j then removeIdL j ks else removeIdN j k :: removeIdL j ks

end

mutual

/-- `anchor.insertAdjacentElement("afterend", newNode)`: insert the new node
right after the sibling with the anchor id. -/
def insertAfterN (anchor : Nat) (newNode : DNode) : DNode → DNode
  | .elem i t cs nm ty ks => .elem i t cs nm ty (insertAfterL anchor newNode ks)
  | .txt i s => .txt i s

def insertAfterL (anchor : Nat) (newNode : DNode) : List DNode → List DNode
  | [] => []
  | k :: ks =>
    if nidOf k = anchor then k :: newNode :: ks
    else insertAfterN anchor newNode k :: insertAfterL anchor newNode ks

end

mutual

/-- `extractLabelTextFromSiblings` walk, tree part: in the parent of the node
with the given id, collect and remove the run of text-node siblings directly
following it (stopping at the first element sibling). -/
def extractTextsN (j : Nat) : DNode → DNode × String
  | .elem i t cs nm ty ks =>
    let r := extractTextsK j ks
    (.elem i t cs nm ty r.1, r.2)
  | .txt i s => (.txt i s, "")

def extractTextsK (j : Nat) : List DNode → List DNode × String
  | [] => ([], "")
  | k :: ks =>
    if nidOf k = j then
      let r := collectTexts ks
      (k :: r.1, r.2)
    else
      let r1 := extractTextsN j k
      let r2 := extractTextsK j ks
      (r1.1 :: r2.1, r1.2 ++ r2.2)

/-- The sibling walk itself: text nodes are concatenated and dropped until the
first element node. -/
def collectTexts : List DNode → List DNode × String
  | [] => ([], "")
  | .txt _ s :: rest =>
    let r := collectTexts rest
    (r.1, s ++ r.2)
  | .elem i t cs nm ty ks :: rest => (.elem i t cs nm ty ks :: rest, "")

end

mutual

/-- Every class attribute value occurring anywhere in the tree. -/
def classesInN : DNode → List String
  | .elem _ _ cs _ _ ks => cs ++ classesInL ks
  | .txt _ _ => []

def classesInL : List DNode → List String
  | [] => []
  | k :: ks => classesInN k ++ classesInL ks

end

mutual

/-- Ids and nodes on the unique path from the root down to the node with the
given id (root first, target last). -/
def pathNodes (n : DNode) (j : Nat) : Option (List DNode) :=
  if nidOf n = j then some [n]
  else
    match n with
    | .elem _ _ _ _ _ ks =>
      match pathNodesL ks j with
      | some p => some (n :: p)
      | none => none
    | .txt _ _ => none

def pathNodesL : List DNode → Nat → Option (List DNode)
  | [], _ => none
  | k :: ks, j =>
    match pathNodes k j with
    | some p => some p
    | none => pathNodesL ks j

end

/-- `el.parentElement` (none for the root or an absent id). -/
def parentOfId (n : DNode) (j : Nat) : Option Nat :=
  match pathNodes n j with
  | some p => (p.dropLast.getLast?).map nidOf
  | none => none

/-- `el.closest("." ++ c)`: nearest ancestor-or-self carrying the class. -/
def closestWithClass (n : DNode) (j : Nat) (c : String) : Option Nat :=
  match pathNodes n j with
  | some p => (p.reverse.find? (fun m => (classesOf m).contains c)).map nidOf
  | none => none

/-- `classList.add`: append the class unless present. -/
def addClassList (cs : List String) (c : String) : List String :=
  if cs.contains c then cs else cs ++ [c]

/-- `classList.remove`. -/
def removeClassList (cs : List String) (c : String) : List String :=
  cs.filter (fun x => x ≠ c)

/-- `classList.add` on the node with the given id. -/
def addClassId (n : DNode) (j : Nat) (c : String) : DNode :=
  updateAtN j
    (fun m =>
      match m with
      | .elem i t cs nm ty ks => .elem i t (addClassList cs c) nm ty ks
      | other => other)
    n

/-- Class list of the node with the given id (none for text nodes / absent). -/
def classesOfId (n : DNode) (j : Nat) : Option (List String) :=
  match findNode n j with
  | some (.elem _ _ cs _ _ _) => some cs
  | _ => none

/-- `appendChild` on the node with the given id. -/
def appendChildId (n : DNode) (j : Nat) (child : DNode) : DNode :=
  updateAtN j
    (fun m =>
      match m with
      | .elem i t cs nm ty ks => .elem i t cs nm ty (ks ++ [child])
      | other => other)
    n

/-- `prepend` on the node with the given id. -/
def prependChildId (n : DNode) (j : Nat) (child : DNode) : DNode :=
  updateAtN j
    (fun m =>
      match m with
      | .elem i t cs nm ty ks => .elem i t cs nm ty (child :: ks)
      | other => other)
    n

end Dom

/-! ## Item-sheet checkbox restructuring (`scripts/hooks/item-config-checkboxes.js`) -/

namespace ItemConfig

open Dom

def CLASS_INFOBOX : String := "wodru-checkbox-infobox"

def CLASS_LIST : String := "wodru-checkbox-list"

def CLASS_ROW : String := "wodru-checkbox-row"

def CLASS_LABEL : String := "wodru-checkbox-label"

/-- `isRu()`: `game.i18n.lang === "ru"` (false when the read throws). -/
def isRu (lang : String) : Bool := lang == "ru"

/-- `root.querySelector(input[type="checkbox"][name=...])`. -/
def qsInput (root : DNode) (nm : String) : Option Nat :=
  firstMatchN
    (fun n =>
      match n with
      | .elem _ tg _ na ty _ => tg == "input" && ty == "checkbox" && na == nm
      | .txt _ _ => false)
    root

/-- `infobox.querySelector("label")`: first label descendant. -/
def qsLabelDesc (root : DNode) (j : Nat) : Option Nat :=
  match findNode root j with
  | some sub =>
    firstMatchL
      (fun n =>
        match n with
        | .elem _ tg _ _ _ _ => tg == "label"
        | .txt _ _ => false)
      (kidsOf sub)
  | none => none

/-- `isAlreadyProcessed(container)`:
`container.classList.contains(CLASS_LIST)`. -/
def isAlreadyProcessed (t : DNode) (container : Nat) : Bool :=
  match classesOfId t container with
  | some cs => cs.contains CLASS_LIST
  | none => false

/-- `extractLabelTextFromSiblings(inputEl)`: returns the trimmed concatenation
of the removed text siblings together with the updated tree. -/
def extractLabelTextFromSiblings (t : DNode) (inputId : Nat) : String × DNode :=
  let r := extractTextsN inputId t
  (jsTrim r.2, r.1)

/-- `ensureRow(container, inputEl)`: build a fresh `div.wodru-checkbox-row`
containing the input (moved out of its old place) followed by a
`span.wodru-checkbox-label` holding the extracted label text, and append the
row to the container.  Consumes three fresh node ids (row, span, text node;
`textContent := ""` adds no text node). -/
def ensureRow (t : DNode) (fresh : Nat) (container inputId : Nat) : DNode × Nat :=
  let ex := extractLabelTextFromSiblings t inputId
  let labelText := ex.1
  let t1 := ex.2
  let inputNode := (findNode t1 inputId).getD (.txt 0 "")
  let t2 := removeIdN inputId t1
  let spanKids : List DNode := if labelText = "" then [] else [.txt (fresh + 2) labelText]
  let labelSpan : DNode := .elem (fresh + 1) "span" [CLASS_LABEL] "" "" spanKids
  let row : DNode := .elem fresh "div" [CLASS_ROW] "" "" [inputNode, labelSpan]
  (appendChildId t2 container row, fresh + 3)

/-- Container resolution of `processGroupByNames`: in `auto` mode the parent
of the first input is the container when it is not the infobox itself,
otherwise the mode falls back to `create` (also when the input has no
parent); any other incoming mode is passed through with no resolved
container. -/
def resolveContainerAuto (t1 : DNode) (i0 infobox : Nat) (containerMode0 : String) :
    Option Nat × String :=
  if containerMode0 == "auto" then
    match parentOfId t1 i0 with
    | some parent => if parent ≠ infobox then (some parent, "auto") else (none, "create")
    | none => (none, "create")
  else (none, containerMode0)

/-- The guarded conversion tail of `processGroupByNames`: return unchanged
when the container already carries `CLASS_LIST`, otherwise add `CLASS_LIST`
and move every still-connected input into a fresh row. -/
def convertContainer (t2 : DNode) (fresh1 : Nat) (inputs : List Nat) (container : Nat) :
    DNode × Nat :=
  if isAlreadyProcessed t2 container then (t2, fresh1)
  else
    let t3 := addClassId t2 container CLASS_LIST
    inputs.foldl
      (fun acc inp =>
        if containsId acc.1 inp then ensureRow acc.1 acc.2 container inp else acc)
      (t3, fresh1)

/-- The part of `processGroupByNames` after the infobox has been marked:
resolve the container mode, create and insert the container div in `create`
mode (after the first label descendant, else prepended), bail out when no
container was obtained (`if (!container) return`), then run the guarded
conversion. -/
def processGroupWithInfobox (t1 : DNode) (fresh0 : Nat) (inputs : List Nat)
    (i0 infobox : Nat) (containerMode0 : String) : DNode × Nat :=
  let resolved := resolveContainerAuto t1 i0 infobox containerMode0
  if resolved.2 == "create" then
    let contNode : DNode := .elem fresh0 "div" [] "" "" []
    let t2 :=
      match qsLabelDesc t1 infobox with
      | some lb => insertAfterN lb contNode t1
      | none => prependChildId t1 infobox contNode
    convertContainer t2 (fresh0 + 1) inputs fresh0
  else
    match resolved.1 with
    | none => (t1, fresh0)
    | some container => convertContainer t1 fresh0 inputs container

/-- `processGroupByNames(root, names, { containerMode })`: resolve the
checkbox inputs by name (in the order of the name list, dropping the ones not
found), bail out when none exist or no enclosing `.infobox` does, mark the
infobox with `CLASS_INFOBOX`, then resolve/create the container and convert
it. -/
def processGroupByNames (t0 : DNode) (fresh0 : Nat) (names : List String)
    (containerMode0 : String) : DNode × Nat :=
  let inputs := names.filterMap (fun nm => qsInput t0 nm)
  match inputs with
  | [] => (t0, fresh0)
  | i0 :: _ =>
    match closestWithClass t0 i0 "infobox" with
    | none => (t0, fresh0)
    | some infobox =>
      let t1 := addClassId t0 infobox CLASS_INFOBOX
      processGroupWithInfobox t1 fresh0 inputs i0 infobox containerMode0

def rangedNames : List String :=
  [ "system.mode.hasreload", "system.mode.hasburst"
  , "system.mode.hasfullauto", "system.mode.hasspray" ]

def armorNames : List String :=
  [ "system.forms.hashomid", "system.forms.hasglabro", "system.forms.hascrinos"
  , "system.forms.hashispo", "system.forms.haslupus" ]

/-- The `renderItemSheet` hook body: RU only; Ranged Weapon fire modes use the
`auto` container mode, Armor forms use `create`; every other item type leaves
the DOM untouched. -/
def renderItemSheetHook (lang itemType : String) (t : DNode) (fresh : Nat) : DNode × Nat :=
  if ¬ isRu lang then (t, fresh)
  else if itemType == "" then (t, fresh)
  else
    let r1 :=
      if itemType == "Ranged Weapon" then processGroupByNames t fresh rangedNames "auto"
      else (t, fresh)
    if itemType == "Armor" then processGroupByNames r1.1 r1.2 armorNames "create"
    else r1

/-- A Ranged Weapon fire-mode infobox as the system template renders it: a
label, then a wrapper div holding a checkbox followed by its text-node label
(a sheet that exposes only the reload mode). -/
def demoInfobox : Dom.DNode :=
  .elem 0 "div" ["infobox"] "" ""
    [ .elem 1 "label" [] "" "" [.txt 2 "Fire modes"]
    , .elem 3 "div" [] "" ""
        [.elem 4 "input" [] "system.mode.hasreload" "checkbox" [], .txt 5 "Reload"] ]

/-- First run of the checkbox group conversion on the demo infobox. -/
def demoOnce : Dom.DNode × Nat := processGroupByNames demoInfobox 10 rangedNames "auto"

/-- Second run, on the DOM the first run already processed. -/
def demoTwice : Dom.DNode × Nat := processGroupByNames demoOnce.1 demoOnce.2 rangedNames "auto"

end ItemConfig

/-! ## RU width class injection (`scripts/ru-width.js`) -/

namespace RuWidth

open Dom

def LANG_CLASS : String := "langRU"

/-- The class-list effect of the `renderActorSheet` handler in
`scripts/ru-width.js` on the sheet root element:
`shouldApply = lang === "ru"`; add `langRU` when it holds, remove it
otherwise.  (The handler additionally takes a logging snapshot, which does not
mutate the DOM.) -/
def renderActorSheetHook (lang : String) (rootClasses : List String) : List String :=
  let shouldApply := lang = "ru"
  if shouldApply then addClassList rootClasses LANG_CLASS
  else removeClassList rootClasses LANG_CLASS

end RuWidth

/-! ## Notes level patch (`notes-level` hook)

The hook selects the Notes feature rows (`.item-row-area.feature-itemlist`)
and fills the level cell.  The routine treats rows independently, selects by
classes it never modifies, and identifies the actor item by the row
`data-itemid`; a row is therefore modelled as the record of everything the
routine reads or writes in it, and the patch as a map over the row list.
-/

namespace NotesLevel

/-- The level cell content.  `nbspHtml` is the state written by
`cell.innerHTML = "&nbsp;"` (text content a single no-break space);
`plain s` is ordinary text content (as written by `cell.textContent = s`,
whose `innerHTML` is the escaped text and hence never the literal string
`&nbsp;`). -/
inductive CellContent where
  | nbspHtml
  | plain (s : String)
deriving DecidableEq

/-- One `.item-row-area.feature-itemlist` row: the dataset marker, the item id
resolved from `.dragrow[data-itemid]` (`""` when missing), whether the level
cell was found, and the state of that cell (content and `title`
attribute). -/
structure NotesRow where
  patchedFlag : Bool
  itemId : String
  hasCell : Bool
  cell : CellContent
  title : Option String
deriving DecidableEq

/-- `item.system.level` as read through `safe(...)`:
JS null, undefined, a number (with its finiteness), a string, or anything
else. -/
inductive LevelVal where
  | vnull
  | vundef
  | vnum (finite : Bool) (q : Rat)
  | vstr (s : String)
  | vother
deriving DecidableEq

structure Norm where
  text : String
  hidden : Bool
  kind : String
deriving DecidableEq

/-- JS `String(number)` for display; formatting is approximated by the `Rat`
printer (no claim depends on the digits). -/
def numToDisplay (q : Rat) : String := toString q

/-- `localizeOrEmpty(key)`: empty and `"0"` keys are hidden; a localization
that is falsy or echoes the key back (the host `game.i18n.localize` returns
the key for missing entries) is hidden; otherwise the localized text.
`loc` is the host localization table. -/
def localizeOrEmpty (loc : String → String) (key : String) : Norm :=
  let k := jsTrim key
  if k = "" then ⟨"", true, "empty-string"⟩
  else if k = "0" then ⟨"", true, "string-zero"⟩
  else
    let localized := loc k
    if localized = "" ∨ localized = k then ⟨"", true, "i18n-missing"⟩
    else ⟨localized, false, "i18n"⟩

/-- `normalizeLevel(raw)`. -/
def normalizeLevel (loc : String → String) : LevelVal → Norm
  | .vnull => ⟨"", true, "nullish"⟩
  | .vundef => ⟨"", true, "nullish"⟩
  | .vnum fin q =>
    if ¬ fin ∨ q ≤ 0 then ⟨"", true, "number<=0"⟩
    else ⟨numToDisplay q, false, "number"⟩
  | .vstr s => localizeOrEmpty loc s
  | .vother => ⟨"", true, "non-supported"⟩

/-- `renderCell(cell, norm)`: hidden writes `&nbsp;` and drops the `title`
attribute; visible writes the text to both content and `title`. -/
def renderCell (r : NotesRow) (norm : Norm) : NotesRow :=
  if norm.hidden then { r with cell := .nbspHtml, title := none }
  else { r with cell := .plain norm.text, title := some norm.text }

/-- U+00A0, the no-break space. -/
def nbspChar : Char := Char.ofNat 160

def textContent : CellContent → String
  | .nbspHtml => String.mk [nbspChar]
  | .plain s => s

/-- The global no-break-space removal `replace(/nbsp/g, "")`, as a character
filter. -/
def stripNbsp (s : String) : String :=
  String.mk (s.toList.filter (fun c => c ≠ nbspChar))

/-- `(cell.textContent ?? "").replace(/nbsp/g, "").trim()`. -/
def currentOf (c : CellContent) : String :=
  jsTrim (stripNbsp (textContent c))

/-- `cell.innerHTML.trim() === "&nbsp;"` (see `CellContent`). -/
def innerHtmlIsNbsp : CellContent → Bool
  | .nbspHtml => true
  | .plain _ => false

/-- The per-row body of `patch(scope, actor)`: skip marked rows, rows without
an item id, rows whose item is missing and rows without a level cell; else
normalize the level, rewrite the cell when the displayed text differs (or
when a hidden cell does not hold the canonical `&nbsp;`), and set the dataset
marker.  `items` is `actor.items.get` restricted to `item.system.level`. -/
def patchRow (items : String → Option LevelVal) (loc : String → String)
    (r : NotesRow) : NotesRow :=
  if r.patchedFlag then r
  else if r.itemId = "" then r
  else
    match items r.itemId with
    | none => r
    | some raw =>
      let norm := normalizeLevel loc raw
      if ¬ r.hasCell then r
      else
        let current := currentOf r.cell
        let desired := if norm.hidden then "" else jsTrim norm.text
        let r1 :=
          if current ≠ desired then renderCell r norm
          else if norm.hidden ∧ ¬ innerHtmlIsNbsp r.cell then renderCell r norm
          else r
        { r1 with patchedFlag := true }

/-- `patch(scope, actor)` over the selected row list. -/
def patch (items : String → Option LevelVal) (loc : String → String)
    (rows : List NotesRow) : List NotesRow :=
  rows.map (patchRow items loc)

end NotesLevel

/-! ## Combat full-text restoration hook

Same modelling granularity as the notes patch: the hook operates row-wise on
the combat item rows, marks processed rows with `dataset.fulltextApplied` and
never changes the classes its selector matches on.
-/

namespace Fulltext

/-- A name/ability cell: its visible content (`input.value` or
`textContent`), plus the two dataset keys the hook writes
(`fullText` via `setCellText`, and `fullName`/`fullAbility`). -/
structure FCell where
  content : String
  dataFullText : Option String
  dataMark : Option String
deriving DecidableEq

/-- One combat row as the hook reads and writes it. -/
structure CombatRow where
  fulltextApplied : Bool
  itemId : String
  hasDragRow : Bool
  nameCell : Option FCell
  abilityCell : Option FCell
deriving DecidableEq

/-- The item fields the hook reads. -/
structure FItem where
  name : String
  ability : String
  secondaryabilityid : String
deriving DecidableEq

/-- Handlebars helpers and localization as the hook sees them; the `has*`
flags model helper absence (the source falls back in that case). -/
structure HelperEnv where
  hasGetSecondary : Bool
  getSecondaryAbility : String → String → String
  hasGetAbility : Bool
  getAbility : String → String
  localize : String → String

/-- `computeAttackAbilityLabel(item, actor)`: empty ability yields nothing;
`custom` goes through `getSecondaryAbility` (not localized); anything else
through `getAbility` then `localize`.  The actor argument of the helpers is
closed over in `HelperEnv`. -/
def computeAttackAbilityLabel (env : HelperEnv) (item : FItem) : String :=
  let ability := item.ability
  if ability = "" then ""
  else if ability = "custom" then
    if env.hasGetSecondary then env.getSecondaryAbility ability item.secondaryabilityid
    else ""
  else
    let raw := if env.hasGetAbility then env.getAbility ability else ability
    env.localize raw

/-- `setCellText(cell, text)`: set the value/text and `dataset.fullText`.
(The input and plain-text cases write to the same modelled field.) -/
def setCellText (cell : FCell) (text : String) : FCell :=
  { cell with content := text, dataFullText := some text }

/-- The per-row body of the hook: skip marked rows, rows without an item id,
missing items and rows without a drag row; restore the full name (when the
item has one) and the ability label (when non-empty), then mark the row. -/
def patchCombatRow (env : HelperEnv) (items : String → Option FItem)
    (r : CombatRow) : CombatRow :=
  if r.fulltextApplied then r
  else if r.itemId = "" then r
  else
    match items r.itemId with
    | none => r
    | some item =>
      if ¬ r.hasDragRow then r
      else
        let r1 :=
          match r.nameCell with
          | some cell =>
            if item.name ≠ "" then
              { r with nameCell := some { setCellText cell item.name with dataMark := some item.name } }
            else r
          | none => r
        let label := computeAttackAbilityLabel env item
        let r2 :=
          match r1.abilityCell with
          | some cell =>
            if label ≠ "" then
              { r1 with abilityCell := some { setCellText cell label with dataMark := some label } }
            else r1
          | none => r1
        { r2 with fulltextApplied := true }

/-- The hook body over the selected combat rows. -/
def fulltextPatch (env : HelperEnv) (items : String → Option FItem)
    (rows : List CombatRow) : List CombatRow :=
  rows.map (patchCombatRow env items)

end Fulltext

/-! # Theorems -/

/-! ## C3: jump constants are the quarter-scaled, one-decimal rounded base values -/

/-- C3: for every werewolf shape, the hardcoded RU jump constants equal the
system base movement values divided by 4 and rounded to one decimal place
(`Math.round(v * 10) / 10`): Default (2,4), Glabro (3,4), Crinos (4,5),
Hispo (5,6), Lupus (4,7); the quarter-scaling `adjustMovementInPlace` maps
each base pair to exactly the corresponding constant pair, and the override
hook displays exactly the selected constants. -/
theorem c3_jump_constants_quarter_rounded :
    (Movement.JUMP_DEFAULT =
      ⟨Movement.roundToOneDecimal (2 / 4), Movement.roundToOneDecimal (4 / 4)⟩) ∧
    (Movement.JUMP_GLABRO =
      ⟨Movement.roundToOneDecimal (3 / 4), Movement.roundToOneDecimal (4 / 4)⟩) ∧
    (Movement.JUMP_CRINOS =
      ⟨Movement.roundToOneDecimal (4 / 4), Movement.roundToOneDecimal (5 / 4)⟩) ∧
    (Movement.JUMP_HISPO =
      ⟨Movement.roundToOneDecimal (5 / 4), Movement.roundToOneDecimal (6 / 4)⟩) ∧
    (Movement.JUMP_LUPUS =
      ⟨Movement.roundToOneDecimal (4 / 4), Movement.roundToOneDecimal (7 / 4)⟩) ∧
    (Movement.adjustMovementInPlace ⟨some 2, some 4⟩ =
      ⟨some Movement.JUMP_DEFAULT.vjump, some Movement.JUMP_DEFAULT.hjump⟩) ∧
    (Movement.adjustMovementInPlace ⟨some 3, some 4⟩ =
      ⟨some Movement.JUMP_GLABRO.vjump, some Movement.JUMP_GLABRO.hjump⟩) ∧
    (Movement.adjustMovementInPlace ⟨some 4, some 5⟩ =
      ⟨some Movement.JUMP_CRINOS.vjump, some Movement.JUMP_CRINOS.hjump⟩) ∧
    (Movement.adjustMovementInPlace ⟨some 5, some 6⟩ =
      ⟨some Movement.JUMP_HISPO.vjump, some Movement.JUMP_HISPO.hjump⟩) ∧
    (Movement.adjustMovementInPlace ⟨some 4, some 7⟩ =
      ⟨some Movement.JUMP_LUPUS.vjump, some Movement.JUMP_LUPUS.hjump⟩) ∧
    (∀ s m, Movement.applyJumpOverrideInPlace s m =
      ⟨some (Movement.pickJumpConstantsForActor s).vjump,
       some (Movement.pickJumpConstantsForActor s).hjump⟩) := by
  refine ⟨?_, ?_, ?_, ?_, ?_, ?_, ?_, ?_, ?_, ?_, fun s m => rfl⟩ <;>
    norm_num [Movement.JUMP_DEFAULT, Movement.JUMP_GLABRO, Movement.JUMP_CRINOS,
      Movement.JUMP_HISPO, Movement.JUMP_LUPUS, Movement.roundToOneDecimal,
      Movement.jsMathRound, Movement.adjustMovementInPlace,
      Movement.JumpPair.mk.injEq, Movement.MovementRec.mk.injEq]

/-! ## C7: template loader wrappers are behaviour preserving -/

/-- C7: each wrapper installed by `patchTemplateFns` calls the original with
the same `this` and unchanged arguments and returns exactly the result of the
original, producing only log lines on the side. -/
theorem c7_template_wrappers_transparent :
    ∀ (ρ : Type) (label : String) (original : JsVal → JsVal → List JsVal → ρ)
      (this paths : JsVal) (rest : List JsVal),
      (TemplatePatch.patchedGetTemplate label original this paths rest).2 =
        original this paths rest ∧
      (TemplatePatch.patchedLoadTemplates label original this paths rest).2 =
        original this paths rest := by
  intro ρ label original this paths rest
  exact ⟨rfl, rfl⟩

/-! ## C8: the shared log formatter -/

/-- C8: the shared log dispatcher emits nothing when the debug setting is
false or unreadable, and exactly one console line otherwise, consisting of
the fixed tag, the timestamp label and the message, extended by the
JSON-stringified payload when one is given; stringification falls back to
`String(data)` when `JSON.stringify` throws. -/
theorem c8_log_formatter :
    ∀ (e : LoggerCore.LogEnv) (level msg : String) (data : Option LoggerCore.JsData),
      (LoggerCore.isDebugEnabled e = false → LoggerCore.log e level msg data = []) ∧
      (e.debugSetting = none → LoggerCore.log e level msg data = []) ∧
      (LoggerCore.isDebugEnabled e = true → data = none →
        LoggerCore.log e level msg data =
          [⟨level, LoggerCore.TAG ++ " " ++ LoggerCore.now e ++ " " ++ msg⟩]) ∧
      (LoggerCore.isDebugEnabled e = true → ∀ d, data = some d →
        LoggerCore.log e level msg data =
          [⟨level, LoggerCore.TAG ++ " " ++ LoggerCore.now e ++ " " ++ msg ++ " " ++
            LoggerCore.toJson (some d)⟩]) ∧
      (∀ d s, d.stringifyRes = .ok s → LoggerCore.toJson (some d) = s) ∧
      (∀ d s, d.stringifyRes = .error () → d.toStringRes = .ok s →
        LoggerCore.toJson (some d) = s) ∧
      (∀ d, d.stringifyRes = .error () → d.toStringRes = .error () →
        LoggerCore.toJson (some d) = "[unstringifiable]") := by
  intro e level msg data
  refine ⟨?_, ?_, ?_, ?_, ?_, ?_, ?_⟩
  · intro h
    simp [LoggerCore.log, h]
  · intro h
    have hd : LoggerCore.isDebugEnabled e = false := by
      simp [LoggerCore.isDebugEnabled, h]
    simp [LoggerCore.log, hd]
  · intro h hd
    subst hd
    simp [LoggerCore.log, h]
  · intro h d hd
    subst hd
    simp [LoggerCore.log, h]
  · intro d s h
    simp [LoggerCore.toJson, h]
  · intro d s h1 h2
    simp [LoggerCore.toJson, h1, h2]
  · intro d h1 h2
    simp [LoggerCore.toJson, h1, h2]

/-- Witness for C8 at concrete inputs: an unreadable setting emits nothing; an
enabled setting with a payload whose `JSON.stringify` throws emits exactly the
one line with the `String(data)` fallback. -/
theorem c8_log_formatter_witness :
    LoggerCore.log ⟨none, some "0.0"⟩ "info" "boot" none = [] ∧
    LoggerCore.log ⟨some false, some "0.0"⟩ "warn" "boot" none = [] ∧
    LoggerCore.log ⟨some true, some "0.0"⟩ "info" "boot"
        (some ⟨Except.error (), Except.ok "cyc"⟩) =
      [⟨"info", "[wod-v20-ru][debug] t+0.0ms boot cyc"⟩] := by
  refine ⟨?_, ?_, ?_⟩
  · exact (c8_log_formatter ⟨none, some "0.0"⟩ "info" "boot" none).2.1 rfl
  · exact (c8_log_formatter ⟨some false, some "0.0"⟩ "warn" "boot" none).1 rfl
  · exact (c8_log_formatter ⟨some true, some "0.0"⟩ "info" "boot"
      (some ⟨Except.error (), Except.ok "cyc"⟩)).2.2.2.1 rfl _ rfl

/-! ## C9: `safe` is total -/

/-- C9: `safe(fn, fallback)` returns the thunk value when the thunk does not
throw, the fallback when it throws (the default fallback being `undefined`),
and never propagates the exception (it is a total function of the thunk
outcome). -/
theorem c9_safe_total :
    ∀ (α : Type) (fn : Except Unit α) (fb : α),
      (∀ v, fn = .ok v → LoggerCore.safe fn fb = v) ∧
      (fn = .error () → LoggerCore.safe fn fb = fb) ∧
      (∀ g : Except Unit JsVal, g = .error () → LoggerCore.safeDefault g = JsVal.undef) := by
  intro α fn fb
  refine ⟨?_, ?_, ?_⟩
  · intro v h
    subst h
    rfl
  · intro h
    subst h
    rfl
  · intro g h
    subst h
    rfl

/-- Witness for C9 at concrete thunk outcomes. -/
theorem c9_safe_total_witness :
    LoggerCore.safe (Except.ok 5) 0 = 5 ∧
    LoggerCore.safe (Except.error () : Except Unit Nat) 7 = 7 ∧
    LoggerCore.safeDefault (Except.error ()) = JsVal.undef := by
  refine ⟨?_, ?_, ?_⟩
  · exact (c9_safe_total Nat (Except.ok 5) 0).1 5 rfl
  · exact (c9_safe_total Nat (Except.error ()) 7).2.1 rfl
  · exact (c9_safe_total Nat (Except.ok 0) 0).2.2 (Except.error ()) rfl

/-! ## C10: translation loader and deep merge -/

theorem lookupField_setFieldL_ne (fs : List (String × JsVal)) (k k2 : String) (x : JsVal)
    (h : k ≠ k2) : ModuleI18n.lookupField (ModuleI18n.setFieldL fs k2 x) k =
      ModuleI18n.lookupField fs k := by
  induction fs with
  | nil => simp [ModuleI18n.setFieldL, ModuleI18n.lookupField, Ne.symm h]
  | cons hd tl ih =>
    obtain ⟨k3, v3⟩ := hd
    by_cases h3 : k3 = k2
    · subst h3
      simp [ModuleI18n.setFieldL, ModuleI18n.lookupField, Ne.symm h]
    · simp only [ModuleI18n.setFieldL, if_neg h3, ModuleI18n.lookupField]
      by_cases h4 : k3 = k
      · simp [h4]
      · simp [h4, ih]

theorem getField_setField_ne (t : JsVal) (k k2 : String) (x : JsVal) (h : k ≠ k2) :
    ModuleI18n.getField (ModuleI18n.setField t k2 x) k = ModuleI18n.getField t k := by
  cases t with
  | jobj fs => simpa [ModuleI18n.setField, ModuleI18n.getField] using
      lookupField_setFieldL_ne fs k k2 x h
  | undef => rfl
  | jnull => rfl
  | jbool b => rfl
  | jnum q => rfl
  | jstr s => rfl
  | jarr es => rfl

theorem getField_mergeFields_not_mem (l : List (String × JsVal)) (t : JsVal) (k : String)
    (h : k ∉ l.map Prod.fst) :
    ModuleI18n.getField (ModuleI18n.mergeFields t l) k = ModuleI18n.getField t k := by
  induction l generalizing t with
  | nil => simp [ModuleI18n.mergeFields]
  | cons hd tl ih =>
    obtain ⟨k2, v⟩ := hd
    simp only [List.map_cons, List.mem_cons, not_or] at h
    obtain ⟨hne, hrest⟩ := h
    rw [ModuleI18n.mergeFields]
    by_cases hv : ModuleI18n.isMergeableObj v
    · simp only [hv, if_pos]
      rw [ih _ hrest, getField_setField_ne _ _ _ _ hne]
    · simp only [hv]
      rw [if_neg (by simp [hv]), ih _ hrest, getField_setField_ne _ _ _ _ hne]

/-- C10: the loader picks `lang/module-ru.json` exactly when the resolved
language is `"ru"` (otherwise `lang/module-en.json`); on a primary load
failure it loads and merges the English fallback; and the deep merge leaves
every translation key that the loaded file does not mention unchanged in the
store. -/
theorem c10_translation_loader :
    ∀ (env : ModuleI18n.FetchEnv) (lang : String) (store : JsVal),
      (ModuleI18n.chosenPath lang = ModuleI18n.ruJsonPath ↔ lang = "ru") ∧
      (∀ d, env.fetchJson (ModuleI18n.chosenPath lang) = .ok d →
        ModuleI18n.loadModuleTranslations env lang store =
          .ok (ModuleI18n.deepMerge store d, ModuleI18n.chosenPath lang)) ∧
      (∀ d, env.fetchJson (ModuleI18n.chosenPath lang) = .error () →
        env.fetchJson ModuleI18n.enJsonPath = .ok d →
        ModuleI18n.loadModuleTranslations env lang store =
          .ok (ModuleI18n.deepMerge store d, ModuleI18n.enJsonPath)) ∧
      (∀ fs k, k ∉ fs.map Prod.fst →
        ModuleI18n.getField (ModuleI18n.deepMerge store (.jobj fs)) k =
          ModuleI18n.getField store k) := by
  intro env lang store
  refine ⟨?_, ?_, ?_, ?_⟩
  · unfold ModuleI18n.chosenPath
    by_cases h : lang = "ru"
    · simp [h]
    · simp only [if_neg h]
      constructor
      · intro he
        exact absurd he (by decide)
      · intro he
        exact absurd he h
  · intro d h
    simp [ModuleI18n.loadModuleTranslations, h]
  · intro d h1 h2
    simp [ModuleI18n.loadModuleTranslations, h1, h2]
  · intro fs k h
    rw [ModuleI18n.deepMerge]
    exact getField_mergeFields_not_mem fs store k h

/-- Witness for C10: on a store holding key `b`, loading for `"ru"` fetches
the ru file and merges it (key `b` untouched); for a language whose primary
load fails the English fallback is merged. -/
theorem c10_translation_loader_witness :
    ModuleI18n.loadModuleTranslations
        ⟨fun p => if p = ModuleI18n.ruJsonPath
            then .ok (.jobj [("a", .jstr "x")]) else .error ()⟩
        "ru" (.jobj [("b", .jstr "y")]) =
      .ok (.jobj [("b", .jstr "y"), ("a", .jstr "x")], ModuleI18n.ruJsonPath) ∧
    ModuleI18n.loadModuleTranslations
        ⟨fun p => if p = ModuleI18n.enJsonPath
            then .ok (.jobj [("a", .jstr "x")]) else .error ()⟩
        "ru" (.jobj []) =
      .ok (.jobj [("a", .jstr "x")], ModuleI18n.enJsonPath) ∧
    ModuleI18n.getField
        (ModuleI18n.deepMerge (.jobj [("b", .jstr "y")]) (.jobj [("a", .jstr "x")])) "b" =
      ModuleI18n.getField (.jobj [("b", .jstr "y")]) "b" := by
  refine ⟨?_, ?_, ?_⟩
  · exact (c10_translation_loader
      ⟨fun p => if p = ModuleI18n.ruJsonPath
          then .ok (.jobj [("a", .jstr "x")]) else .error ()⟩
      "ru" (.jobj [("b", .jstr "y")])).2.1 (.jobj [("a", .jstr "x")]) rfl
  · exact (c10_translation_loader
      ⟨fun p => if p = ModuleI18n.enJsonPath
          then .ok (.jobj [("a", .jstr "x")]) else .error ()⟩
      "ru" (.jobj [])).2.2.1 (.jobj [("a", .jstr "x")]) (by rfl) (by rfl)
  · exact (c10_translation_loader
      ⟨fun _ => .error ()⟩ "ru" (.jobj [("b", .jstr "y")])).2.2.2
      [("a", .jstr "x")] "b" (by decide)

/-! ## C5: shape of every persisted record -/

theorem lookupEntry_setEntry (m : List (String × SheetPos.FlagStored)) (k : String)
    (x : SheetPos.FlagStored) :
    SheetPos.lookupEntry (SheetPos.setEntry m k x) k = some x := by
  induction m with
  | nil => simp [SheetPos.setEntry, SheetPos.lookupEntry]
  | cons hd tl ih =>
    obtain ⟨k2, v2⟩ := hd
    by_cases h : k2 = k
    · subst h
      simp [SheetPos.setEntry, SheetPos.lookupEntry]
    · simp [SheetPos.setEntry, SheetPos.lookupEntry, h, ih]

theorem lookupEntry_setEntry_ne (m : List (String × SheetPos.FlagStored)) (k k2 : String)
    (x : SheetPos.FlagStored) (h : k ≠ k2) :
    SheetPos.lookupEntry (SheetPos.setEntry m k2 x) k = SheetPos.lookupEntry m k := by
  induction m with
  | nil => simp [SheetPos.setEntry, SheetPos.lookupEntry, Ne.symm h]
  | cons hd tl ih =>
    obtain ⟨k3, v3⟩ := hd
    by_cases h3 : k3 = k2
    · subst h3
      simp [SheetPos.setEntry, SheetPos.lookupEntry, Ne.symm h]
    · simp only [SheetPos.setEntry, if_neg h3, SheetPos.lookupEntry]
      by_cases h4 : k3 = k
      · simp [h4]
      · simp [h4, ih]

/-- C5: `setSavedPosition` stores under the sheet class key exactly the record
with `left`/`top` always present (the finite normalized numbers), `width` and
`height` present exactly when finite, and each boolean marker present exactly
when true — and no other field (the payload constructor admits no others);
entries of other sheet classes are untouched; and `getSavedPosition` yields
`null` both for a missing entry and for any stored value that is not an
object. -/
theorem c5_persisted_record_shape :
    ∀ (current : Option (List (String × SheetPos.FlagStored))) (sheetClass : String)
      (pos : SheetPos.WRec),
      SheetPos.lookupEntry (SheetPos.setSavedPosition current sheetClass pos) sheetClass =
        some (.fobj (some pos.left) (some pos.top) pos.width pos.height
          (if pos.migratedDefaultV2 then some true else none)
          (if pos.userMovedV1 then some true else none)) ∧
      (∀ cls2, cls2 ≠ sheetClass →
        SheetPos.lookupEntry (SheetPos.setSavedPosition current sheetClass pos) cls2 =
          SheetPos.lookupEntry (current.getD []) cls2) ∧
      SheetPos.getSavedPosition (some .fnonobj) = none ∧
      SheetPos.getSavedPosition none = none := by
  intro current sheetClass pos
  refine ⟨?_, ?_, rfl, rfl⟩
  · exact lookupEntry_setEntry _ _ _
  · intro cls2 h
    exact lookupEntry_setEntry_ne _ _ _ _ h

/-- Witness for C5 at a concrete map and position record: the stored payload
drops the non-finite height, keeps the finite width, writes only the true
marker, and leaves the other sheet class entry alone. -/
theorem c5_persisted_record_shape_witness :
    SheetPos.lookupEntry
        (SheetPos.setSavedPosition (some [("OtherSheet", .fnonobj)]) "WoDActorSheet"
          ⟨100, 5, some 900, none, true, false⟩) "WoDActorSheet" =
      some (.fobj (some 100) (some 5) (some 900) none (some true) none) ∧
    SheetPos.lookupEntry
        (SheetPos.setSavedPosition (some [("OtherSheet", .fnonobj)]) "WoDActorSheet"
          ⟨100, 5, some 900, none, true, false⟩) "OtherSheet" =
      some .fnonobj := by
  constructor
  · exact (c5_persisted_record_shape (some [("OtherSheet", .fnonobj)]) "WoDActorSheet"
      ⟨100, 5, some 900, none, true, false⟩).1
  · exact (c5_persisted_record_shape (some [("OtherSheet", .fnonobj)]) "WoDActorSheet"
      ⟨100, 5, some 900, none, true, false⟩).2.1 "OtherSheet" (by decide)

/-! ## C1: a user-moved saved position is always respected -/

/-- C1: on every render whose saved record has `userMovedV1 === true` and
finite `left`/`top`, the module calls `setPosition` exactly once, unflagged,
with the saved `left`/`top` (and the saved width/height options, present
exactly when finite); the hardcoded-default branch is not reached (no flagged
call, no direct default write), and after the render the stored record still
holds the saved `left`/`top` with `userMovedV1` still true. -/
theorem c1_user_moved_position_locked :
    ∀ (env : SheetPos.RenderEnv) (app0 : SheetPos.AppPos) (st : Option SheetPos.FlagStored)
      (r : SheetPos.SRec) (l t : Rat),
      SheetPos.getSavedPosition st = some r → r.userMovedV1 = true →
      r.left = some l → r.top = some t →
      (SheetPos.applySavedOrHardDefault env app0 (SheetPos.getSavedPosition st)).calls =
        [(false, ⟨some l, some t, r.width, r.height⟩)] ∧
      (SheetPos.applySavedOrHardDefault env app0 (SheetPos.getSavedPosition st)).directWrite =
        none ∧
      ∃ r2 : SheetPos.SRec,
        SheetPos.getSavedPosition (SheetPos.renderStep env app0 st).1 = some r2 ∧
        r2.left = some l ∧ r2.top = some t ∧ r2.userMovedV1 = true := by
  intro env app0 st r l t h1 h2 h3 h4
  obtain ⟨rl, rt, rw2, rh2, rmg, rum⟩ := r
  simp only at h2 h3 h4
  subst h2 h3 h4
  rw [h1]
  refine ⟨?_, ?_, ?_⟩
  · simp [SheetPos.applySavedOrHardDefault]
  · simp [SheetPos.applySavedOrHardDefault]
  · simp only [SheetPos.renderStep, h1]
    refine ⟨_, rfl, ?_, ?_, ?_⟩ <;>
      simp [SheetPos.applySavedOrHardDefault, SheetPos.wrapperPersistPos,
        SheetPos.setSavedPositionPayload, SheetPos.getSavedPosition,
        SheetPos.normalizeAppPosition, SheetPos.hostSetPosition]

/-- Witness for C1 at a concrete saved record `(33, 44)` with
`userMovedV1 = true`. -/
theorem c1_user_moved_position_locked_witness :
    (SheetPos.applySavedOrHardDefault ⟨800, 600, 400, 300⟩ ⟨some 1, some 2, some 3, some 4⟩
        (SheetPos.getSavedPosition
          (some (.fobj (some 33) (some 44) none none none (some true))))).calls =
      [(false, ⟨some 33, some 44, none, none⟩)] ∧
    (SheetPos.applySavedOrHardDefault ⟨800, 600, 400, 300⟩ ⟨some 1, some 2, some 3, some 4⟩
        (SheetPos.getSavedPosition
          (some (.fobj (some 33) (some 44) none none none (some true))))).directWrite =
      none ∧
    ∃ r2 : SheetPos.SRec,
      SheetPos.getSavedPosition
          (SheetPos.renderStep ⟨800, 600, 400, 300⟩ ⟨some 1, some 2, some 3, some 4⟩
            (some (.fobj (some 33) (some 44) none none none (some true)))).1 =
        some r2 ∧
      r2.left = some 33 ∧ r2.top = some 44 ∧ r2.userMovedV1 = true :=
  c1_user_moved_position_locked ⟨800, 600, 400, 300⟩ ⟨some 1, some 2, some 3, some 4⟩
    (some (.fobj (some 33) (some 44) none none none (some true)))
    ⟨some 33, some 44, none, none, false, true⟩ 33 44 rfl rfl rfl rfl

/-! ## C2: the hardcoded-default migration runs at most once -/

theorem getSavedPosition_payload (pos : SheetPos.WRec) :
    SheetPos.getSavedPosition (some (SheetPos.setSavedPositionPayload pos)) =
      some ⟨some pos.left, some pos.top, pos.width, pos.height,
        pos.migratedDefaultV2, pos.userMovedV1⟩ := by
  cases hm : pos.migratedDefaultV2 <;> cases hu : pos.userMovedV1 <;>
    simp [SheetPos.getSavedPosition, SheetPos.setSavedPositionPayload, hm, hu]

theorem step_blocked (st : Option SheetPos.FlagStored) (e : SheetPos.SheetEv) :
    ∀ r, SheetPos.getSavedPosition (SheetPos.step st e).1 = some r →
      r.userMovedV1 = true := by
  cases e with
  | render env a =>
    intro r h
    simp only [SheetPos.step, SheetPos.renderStep, getSavedPosition_payload,
      Option.some.injEq] at h
    rw [← h]
    simp [SheetPos.wrapperPersistPos]
  | userMove a =>
    intro r h
    simp only [SheetPos.step, SheetPos.userMoveStep, getSavedPosition_payload,
      Option.some.injEq] at h
    rw [← h]
    simp [SheetPos.wrapperPersistPos]

theorem blocked_no_mig (st : Option SheetPos.FlagStored)
    (h : ∀ r, SheetPos.getSavedPosition st = some r → r.userMovedV1 = true)
    (e : SheetPos.SheetEv) : (SheetPos.step st e).2 = false := by
  cases e with
  | userMove a => rfl
  | render env a =>
    simp only [SheetPos.step, SheetPos.renderStep]
    cases hs : SheetPos.getSavedPosition st with
    | none => simp [SheetPos.tookMigrationOf]
    | some r =>
      have hum := h r hs
      obtain ⟨rl, rt, rw2, rh2, rmg, rum⟩ := r
      simp only at hum
      subst hum
      cases rl <;> cases rt <;> simp [SheetPos.tookMigrationOf]

theorem migCount_blocked (evs : List SheetPos.SheetEv) :
    ∀ st, (∀ r, SheetPos.getSavedPosition st = some r → r.userMovedV1 = true) →
      SheetPos.migCount st evs = 0 := by
  induction evs with
  | nil =>
    intro st h
    rfl
  | cons e rest ih =>
    intro st h
    simp only [SheetPos.migCount]
    rw [blocked_no_mig st h e]
    simpa using ih _ (step_blocked st e)

/-- C2: the migration branch runs only on a saved record with
`migratedDefaultV2 !== true` and `userMovedV1 !== true`; every direct write of
a module default (migration or first-save) persists
`migratedDefaultV2 = true`; and over any event trace the migration branch runs
at most once for a given sheet class and user. -/
theorem c2_migration_at_most_once :
    ∀ (st : Option SheetPos.FlagStored) (evs : List SheetPos.SheetEv),
      SheetPos.migCount st evs ≤ 1 ∧
      (∀ env a, (SheetPos.renderStep env a st).2 = true →
        ∃ r, SheetPos.getSavedPosition st = some r ∧
          r.migratedDefaultV2 = false ∧ r.userMovedV1 = false) ∧
      (∀ env a w,
        (SheetPos.applySavedOrHardDefault env a (SheetPos.getSavedPosition st)).directWrite =
          some w → w.migratedDefaultV2 = true) := by
  intro st evs
  refine ⟨?_, ?_, ?_⟩
  · cases evs with
    | nil => simp [SheetPos.migCount]
    | cons e rest =>
      simp only [SheetPos.migCount]
      rw [migCount_blocked rest _ (step_blocked st e)]
      cases (SheetPos.step st e).2 <;> simp
  · intro env a htook
    simp only [SheetPos.renderStep] at htook
    cases hs : SheetPos.getSavedPosition st with
    | none =>
      rw [hs] at htook
      simp [SheetPos.tookMigrationOf] at htook
    | some r =>
      rw [hs] at htook
      obtain ⟨rl, rt, rw2, rh2, rmg, rum⟩ := r
      cases rl <;> cases rt <;> simp [SheetPos.tookMigrationOf] at htook
      exact ⟨_, rfl, htook.2, htook.1⟩
  · intro env a w h
    cases hs : SheetPos.getSavedPosition st with
    | none =>
      rw [hs] at h
      simp only [SheetPos.applySavedOrHardDefault, SheetPos.applyHardDefault,
        Option.some.injEq] at h
      rw [← h]
    | some r =>
      rw [hs] at h
      obtain ⟨rl, rt, rw2, rh2, rmg, rum⟩ := r
      cases rl <;> cases rt <;> cases rum <;> cases rmg <;>
        simp only [SheetPos.applySavedOrHardDefault, SheetPos.applyHardDefault,
          Bool.not_false, Bool.not_true, not_false_eq_true, not_true_eq_false,
          if_true, if_false, Option.some.injEq, reduceCtorEq] at h <;>
        rw [← h]

/-- Witness for C2: a legacy stored record (finite position, no markers) under
two consecutive renders migrates exactly once; the migration precondition and
the migrated direct write are exhibited at the same input. -/
theorem c2_migration_at_most_once_witness :
    SheetPos.migCount (some (.fobj (some 1) (some 2) none none none none))
        [.render ⟨800, 600, 400, 300⟩ ⟨none, none, none, none⟩,
         .render ⟨800, 600, 400, 300⟩ ⟨none, none, none, none⟩] ≤ 1 ∧
    (∃ r, SheetPos.getSavedPosition
        (some (.fobj (some 1) (some 2) none none none none)) = some r ∧
      r.migratedDefaultV2 = false ∧ r.userMovedV1 = false) ∧
    (∃ w, (SheetPos.applySavedOrHardDefault ⟨800, 600, 400, 300⟩ ⟨none, none, none, none⟩
        (SheetPos.getSavedPosition
          (some (.fobj (some 1) (some 2) none none none none)))).directWrite = some w ∧
      w.migratedDefaultV2 = true) := by
  refine ⟨?_, ?_, ?_⟩
  · exact (c2_migration_at_most_once (some (.fobj (some 1) (some 2) none none none none))
      [.render ⟨800, 600, 400, 300⟩ ⟨none, none, none, none⟩,
       .render ⟨800, 600, 400, 300⟩ ⟨none, none, none, none⟩]).1
  · exact (c2_migration_at_most_once (some (.fobj (some 1) (some 2) none none none none))
      []).2.1 ⟨800, 600, 400, 300⟩ ⟨none, none, none, none⟩ rfl
  · refine ⟨_, rfl, ?_⟩
    exact (c2_migration_at_most_once (some (.fobj (some 1) (some 2) none none none none))
      []).2.2 ⟨800, 600, 400, 300⟩ ⟨none, none, none, none⟩ _ rfl

/-! ## DOM class-tracking lemmas

Every class present after one of the DOM operations was either already in the
tree or is among the classes the operation itself introduces.  These drive the
C4 and C6 theorems.
-/

theorem classesInL_append (a b : List Dom.DNode) :
    Dom.classesInL (a ++ b) = Dom.classesInL a ++ Dom.classesInL b := by
  induction a with
  | nil => simp [Dom.classesInL]
  | cons k ks ih => simp [Dom.classesInL, ih]

mutual

theorem mem_classesIn_updateAtN (j : Nat) (f : Dom.DNode → Dom.DNode) (extra : List String)
    (hf : ∀ n c, c ∈ Dom.classesInN (f n) → c ∈ Dom.classesInN n ∨ c ∈ extra)
    (t : Dom.DNode) (c : String) (h : c ∈ Dom.classesInN (Dom.updateAtN j f t)) :
    c ∈ Dom.classesInN t ∨ c ∈ extra := by
  rw [Dom.updateAtN.eq_def] at h
  by_cases hj : Dom.nidOf t = j
  · rw [if_pos hj] at h
    exact hf t c h
  · rw [if_neg hj] at h
    cases t with
    | elem i tg cs nm ty ks =>
      simp only [Dom.classesInN] at h ⊢
      rcases List.mem_append.mp h with h1 | h2
      · exact Or.inl (List.mem_append.mpr (Or.inl h1))
      · rcases mem_classesIn_updateAtL j f extra hf ks c h2 with h3 | h3
        · exact Or.inl (List.mem_append.mpr (Or.inr h3))
        · exact Or.inr h3
    | txt i s => exact Or.inl h

theorem mem_classesIn_updateAtL (j : Nat) (f : Dom.DNode → Dom.DNode) (extra : List String)
    (hf : ∀ n c, c ∈ Dom.classesInN (f n) → c ∈ Dom.classesInN n ∨ c ∈ extra)
    (l : List Dom.DNode) (c : String) (h : c ∈ Dom.classesInL (Dom.updateAtL j f l)) :
    c ∈ Dom.classesInL l ∨ c ∈ extra := by
  cases l with
  | nil => exact Or.inl h
  | cons k ks =>
    simp only [Dom.updateAtL, Dom.classesInL] at h ⊢
    rcases List.mem_append.mp h with h1 | h2
    · rcases mem_classesIn_updateAtN j f extra hf k c h1 with h3 | h3
      · exact Or.inl (List.mem_append.mpr (Or.inl h3))
      · exact Or.inr h3
    · rcases mem_classesIn_updateAtL j f extra hf ks c h2 with h3 | h3
      · exact Or.inl (List.mem_append.mpr (Or.inr h3))
      · exact Or.inr h3

end

theorem mem_addClassList (cs : List String) (cl c : String)
    (h : c ∈ Dom.addClassList cs cl) : c ∈ cs ∨ c = cl := by
  rw [Dom.addClassList] at h
  by_cases hc : cs.contains cl
  · rw [if_pos hc] at h
    exact Or.inl h
  · rw [if_neg hc] at h
    rcases List.mem_append.mp h with h1 | h1
    · exact Or.inl h1
    · exact Or.inr (List.mem_singleton.mp h1)

theorem mem_classesIn_addClassId (t : Dom.DNode) (j : Nat) (cl c : String)
    (h : c ∈ Dom.classesInN (Dom.addClassId t j cl)) :
    c ∈ Dom.classesInN t ∨ c = cl := by
  have := mem_classesIn_updateAtN j _ [cl] ?hf t c h
  · rcases this with h1 | h1
    · exact Or.inl h1
    · exact Or.inr (List.mem_singleton.mp h1)
  case hf =>
    intro n c2 h2
    cases n with
    | elem i tg cs nm ty ks =>
      simp only [Dom.classesInN] at h2 ⊢
      rcases List.mem_append.mp h2 with h3 | h3
      · rcases mem_addClassList cs cl c2 h3 with h4 | h4
        · exact Or.inl (List.mem_append.mpr (Or.inl h4))
        · exact Or.inr (List.mem_singleton.mpr h4)
      · exact Or.inl (List.mem_append.mpr (Or.inr h3))
    | txt i s => exact Or.inl h2

theorem mem_classesIn_appendChildId (t : Dom.DNode) (j : Nat) (child : Dom.DNode)
    (c : String) (h : c ∈ Dom.classesInN (Dom.appendChildId t j child)) :
    c ∈ Dom.classesInN t ∨ c ∈ Dom.classesInN child := by
  refine mem_classesIn_updateAtN j _ (Dom.classesInN child) ?_ t c h
  intro n c2 h2
  cases n with
  | elem i tg cs nm ty ks =>
    simp only [Dom.classesInN, classesInL_append] at h2 ⊢
    rcases List.mem_append.mp h2 with h3 | h3
    · exact Or.inl (List.mem_append.mpr (Or.inl h3))
    · rcases List.mem_append.mp h3 with h4 | h4
      · exact Or.inl (List.mem_append.mpr (Or.inr h4))
      · simp only [Dom.classesInL, List.append_nil] at h4
        exact Or.inr h4
  | txt i s => exact Or.inl h2

theorem mem_classesIn_prependChildId (t : Dom.DNode) (j : Nat) (child : Dom.DNode)
    (c : String) (h : c ∈ Dom.classesInN (Dom.prependChildId t j child)) :
    c ∈ Dom.classesInN t ∨ c ∈ Dom.classesInN child := by
  refine mem_classesIn_updateAtN j _ (Dom.classesInN child) ?_ t c h
  intro n c2 h2
  cases n with
  | elem i tg cs nm ty ks =>
    simp only [Dom.classesInN, Dom.classesInL] at h2 ⊢
    rcases List.mem_append.mp h2 with h3 | h3
    · exact Or.inl (List.mem_append.mpr (Or.inl h3))
    · rcases List.mem_append.mp h3 with h4 | h4
      · exact Or.inr h4
      · exact Or.inl (List.mem_append.mpr (Or.inr h4))
  | txt i s => exact Or.inl h2

mutual

theorem mem_classesIn_removeIdN (j : Nat) (t : Dom.DNode) (c : String)
    (h : c ∈ Dom.classesInN (Dom.removeIdN j t)) : c ∈ Dom.classesInN t := by
  cases t with
  | elem i tg cs nm ty ks =>
    simp only [Dom.removeIdN, Dom.classesInN] at h ⊢
    rcases List.mem_append.mp h with h1 | h1
    · exact List.mem_append.mpr (Or.inl h1)
    · exact List.mem_append.mpr (Or.inr (mem_classesIn_removeIdL j ks c h1))
  | txt i s => exact h

theorem mem_classesIn_removeIdL (j : Nat) (l : List Dom.DNode) (c : String)
    (h : c ∈ Dom.classesInL (Dom.removeIdL j l)) : c ∈ Dom.classesInL l := by
  cases l with
  | nil => exact h
  | cons k ks =>
    rw [Dom.removeIdL] at h
    by_cases hk : Dom.nidOf k = j
    · rw [if_pos hk] at h
      simp only [Dom.classesInL]
      exact List.mem_append.mpr (Or.inr (mem_classesIn_removeIdL j ks c h))
    · rw [if_neg hk] at h
      simp only [Dom.classesInL] at h ⊢
      rcases List.mem_append.mp h with h1 | h1
      · exact List.mem_append.mpr (Or.inl (mem_classesIn_removeIdN j k c h1))
      · exact List.mem_append.mpr (Or.inr (mem_classesIn_removeIdL j ks c h1))

end

mutual

theorem mem_classesIn_insertAfterN (anchor : Nat) (nw : Dom.DNode) (t : Dom.DNode)
    (c : String) (h : c ∈ Dom.classesInN (Dom.insertAfterN anchor nw t)) :
    c ∈ Dom.classesInN t ∨ c ∈ Dom.classesInN nw := by
  cases t with
  | elem i tg cs nm ty ks =>
    simp only [Dom.insertAfterN, Dom.classesInN] at h ⊢
    rcases List.mem_append.mp h with h1 | h1
    · exact Or.inl (List.mem_append.mpr (Or.inl h1))
    · rcases mem_classesIn_insertAfterL anchor nw ks c h1 with h2 | h2
      · exact Or.inl (List.mem_append.mpr (Or.inr h2))
      · exact Or.inr h2
  | txt i s => exact Or.inl h

theorem mem_classesIn_insertAfterL (anchor : Nat) (nw : Dom.DNode) (l : List Dom.DNode)
    (c : String) (h : c ∈ Dom.classesInL (Dom.insertAfterL anchor nw l)) :
    c ∈ Dom.classesInL l ∨ c ∈ Dom.classesInN nw := by
  cases l with
  | nil => exact Or.inl h
  | cons k ks =>
    rw [Dom.insertAfterL] at h
    by_cases hk : Dom.nidOf k = anchor
    · rw [if_pos hk] at h
      simp only [Dom.classesInL] at h ⊢
      rcases List.mem_append.mp h with h1 | h1
      · exact Or.inl (List.mem_append.mpr (Or.inl h1))
      · rcases List.mem_append.mp h1 with h2 | h2
        · exact Or.inr h2
        · exact Or.inl (List.mem_append.mpr (Or.inr h2))
    · rw [if_neg hk] at h
      simp only [Dom.classesInL] at h ⊢
      rcases List.mem_append.mp h with h1 | h1
      · rcases mem_classesIn_insertAfterN anchor nw k c h1 with h2 | h2
        · exact Or.inl (List.mem_append.mpr (Or.inl h2))
        · exact Or.inr h2
      · rcases mem_classesIn_insertAfterL anchor nw ks c h1 with h2 | h2
        · exact Or.inl (List.mem_append.mpr (Or.inr h2))
        · exact Or.inr h2

end

theorem classesIn_collectTexts (l : List Dom.DNode) :
    Dom.classesInL (Dom.collectTexts l).1 = Dom.classesInL l := by
  induction l with
  | nil => rfl
  | cons k ks ih =>
    cases k with
    | txt i s =>
      simp only [Dom.collectTexts, Dom.classesInL]
      rw [ih]
      simp [Dom.classesInN]
    | elem i tg cs nm ty kk => rfl

mutual

theorem classesIn_extractTextsN (j : Nat) (t : Dom.DNode) :
    Dom.classesInN (Dom.extractTextsN j t).1 = Dom.classesInN t := by
  cases t with
  | elem i tg cs nm ty ks =>
    simp only [Dom.extractTextsN, Dom.classesInN]
    rw [classesIn_extractTextsK j ks]
  | txt i s => rfl

theorem classesIn_extractTextsK (j : Nat) (l : List Dom.DNode) :
    Dom.classesInL (Dom.extractTextsK j l).1 = Dom.classesInL l := by
  cases l with
  | nil => rfl
  | cons k ks =>
    rw [Dom.extractTextsK]
    by_cases hk : Dom.nidOf k = j
    · rw [if_pos hk]
      simp only [Dom.classesInL]
      rw [classesIn_collectTexts]
    · rw [if_neg hk]
      simp only [Dom.classesInL]
      rw [classesIn_extractTextsN j k, classesIn_extractTextsK j ks]

end

mutual

theorem mem_classesIn_findNode (t : Dom.DNode) (j : Nat) (sub : Dom.DNode)
    (hfind : Dom.findNode t j = some sub) (c : String)
    (h : c ∈ Dom.classesInN sub) : c ∈ Dom.classesInN t := by
  rw [Dom.findNode.eq_def] at hfind
  by_cases hj : Dom.nidOf t = j
  · rw [if_pos hj] at hfind
    cases hfind
    exact h
  · rw [if_neg hj] at hfind
    cases t with
    | elem i tg cs nm ty ks =>
      simp only [Dom.classesInN]
      exact List.mem_append.mpr (Or.inr (mem_classesIn_findNodeL ks j sub hfind c h))
    | txt i s => cases hfind

theorem mem_classesIn_findNodeL (l : List Dom.DNode) (j : Nat) (sub : Dom.DNode)
    (hfind : Dom.findNodeL l j = some sub) (c : String)
    (h : c ∈ Dom.classesInN sub) : c ∈ Dom.classesInL l := by
  cases l with
  | nil => cases hfind
  | cons k ks =>
    rw [Dom.findNodeL] at hfind
    simp only [Dom.classesInL]
    cases hf : Dom.findNode k j with
    | some r =>
      rw [hf] at hfind
      cases hfind
      exact List.mem_append.mpr (Or.inl (mem_classesIn_findNode k j sub hf c h))
    | none =>
      rw [hf] at hfind
      exact List.mem_append.mpr (Or.inr (mem_classesIn_findNodeL ks j sub hfind c h))

end

theorem mem_classesIn_ensureRow (t : Dom.DNode) (fresh cont inp : Nat) (c : String)
    (h : c ∈ Dom.classesInN (ItemConfig.ensureRow t fresh cont inp).1) :
    c ∈ Dom.classesInN t ∨ c = ItemConfig.CLASS_ROW ∨ c = ItemConfig.CLASS_LABEL := by
  rw [ItemConfig.ensureRow] at h
  dsimp only at h
  rw [ItemConfig.extractLabelTextFromSiblings] at h
  dsimp only at h
  rcases mem_classesIn_appendChildId _ _ _ _ h with h1 | h1
  · have h2 := mem_classesIn_removeIdN _ _ _ h1
    rw [classesIn_extractTextsN] at h2
    exact Or.inl h2
  · simp only [Dom.classesInN, Dom.classesInL, List.append_nil] at h1
    rcases List.mem_append.mp h1 with h2 | h2
    · exact Or.inr (Or.inl (List.mem_singleton.mp h2))
    · rcases List.mem_append.mp h2 with h3 | h3
      · cases hf : Dom.findNode (Dom.extractTextsN inp t).1 inp with
        | some sub =>
          rw [hf] at h3
          have h4 := mem_classesIn_findNode _ _ _ hf c (by simpa using h3)
          rw [classesIn_extractTextsN] at h4
          exact Or.inl h4
        | none =>
          rw [hf] at h3
          simp [Dom.classesInN] at h3
      · rcases List.mem_append.mp h3 with h4 | h4
        · exact Or.inr (Or.inr (List.mem_singleton.mp h4))
        · by_cases hl : jsTrim (Dom.extractTextsN inp t).2 = ""
          · rw [if_pos hl] at h4
            simp [Dom.classesInL] at h4
          · rw [if_neg hl] at h4
            simp [Dom.classesInL, Dom.classesInN] at h4

theorem mem_classesIn_ensureRow_fold (inputs : List Nat) (cont : Nat) :
    ∀ (t : Dom.DNode) (fresh : Nat) (c : String),
      c ∈ Dom.classesInN
        ((inputs.foldl
          (fun acc inp =>
            if Dom.containsId acc.1 inp then ItemConfig.ensureRow acc.1 acc.2 cont inp
            else acc)
          (t, fresh)).1) →
      c ∈ Dom.classesInN t ∨ c = ItemConfig.CLASS_ROW ∨ c = ItemConfig.CLASS_LABEL := by
  induction inputs with
  | nil =>
    intro t fresh c h
    exact Or.inl h
  | cons inp rest ih =>
    intro t fresh c h
    rw [List.foldl_cons] at h
    by_cases hc : Dom.containsId t inp
    · rw [if_pos hc] at h
      rcases ih (ItemConfig.ensureRow t fresh cont inp).1
          (ItemConfig.ensureRow t fresh cont inp).2 c h with h1 | h1
      · exact mem_classesIn_ensureRow t fresh cont inp c h1
      · exact Or.inr h1
    · rw [if_neg hc] at h
      exact ih t fresh c h

theorem mem_classesIn_convertContainer (t2 : Dom.DNode) (fresh1 : Nat)
    (inputs : List Nat) (cont : Nat) (c : String)
    (h : c ∈ Dom.classesInN (ItemConfig.convertContainer t2 fresh1 inputs cont).1) :
    c ∈ Dom.classesInN t2 ∨ c = ItemConfig.CLASS_LIST ∨ c = ItemConfig.CLASS_ROW ∨
      c = ItemConfig.CLASS_LABEL := by
  rw [ItemConfig.convertContainer] at h
  by_cases hp : ItemConfig.isAlreadyProcessed t2 cont
  · rw [if_pos hp] at h
    exact Or.inl h
  · rw [if_neg hp] at h
    dsimp only at h
    rcases mem_classesIn_ensureRow_fold inputs cont _ _ c h with h1 | h1
    · rcases mem_classesIn_addClassId _ _ _ _ h1 with h2 | h2
      · exact Or.inl h2
      · exact Or.inr (Or.inl h2)
    · exact Or.inr (Or.inr h1)

theorem mem_classesIn_processGroupWithInfobox (t1 : Dom.DNode) (fresh0 : Nat)
    (inputs : List Nat) (i0 infobox : Nat) (mode : String) (c : String)
    (h : c ∈ Dom.classesInN
      (ItemConfig.processGroupWithInfobox t1 fresh0 inputs i0 infobox mode).1) :
    c ∈ Dom.classesInN t1 ∨ c = ItemConfig.CLASS_LIST ∨ c = ItemConfig.CLASS_ROW ∨
      c = ItemConfig.CLASS_LABEL := by
  rw [ItemConfig.processGroupWithInfobox] at h
  dsimp only at h
  by_cases hm : (ItemConfig.resolveContainerAuto t1 i0 infobox mode).2 == "create"
  · rw [if_pos hm] at h
    rcases mem_classesIn_convertContainer _ _ _ _ c h with h1 | h1
    · cases hq : ItemConfig.qsLabelDesc t1 infobox with
      | some lb =>
        rw [hq] at h1
        rcases mem_classesIn_insertAfterN _ _ _ _ h1 with h2 | h2
        · exact Or.inl h2
        · simp [Dom.classesInN, Dom.classesInL] at h2
      | none =>
        rw [hq] at h1
        rcases mem_classesIn_prependChildId _ _ _ _ h1 with h2 | h2
        · exact Or.inl h2
        · simp [Dom.classesInN, Dom.classesInL] at h2
    · exact Or.inr h1
  · rw [if_neg hm] at h
    cases hr : (ItemConfig.resolveContainerAuto t1 i0 infobox mode).1 with
    | none =>
      rw [hr] at h
      exact Or.inl h
    | some cont =>
      rw [hr] at h
      exact mem_classesIn_convertContainer _ _ _ _ c h

theorem mem_classesIn_processGroup (t : Dom.DNode) (fresh : Nat) (names : List String)
    (mode : String) (c : String)
    (h : c ∈ Dom.classesInN (ItemConfig.processGroupByNames t fresh names mode).1) :
    c ∈ Dom.classesInN t ∨ c = ItemConfig.CLASS_INFOBOX ∨ c = ItemConfig.CLASS_LIST ∨
      c = ItemConfig.CLASS_ROW ∨ c = ItemConfig.CLASS_LABEL := by
  rw [ItemConfig.processGroupByNames] at h
  dsimp only at h
  cases hinp : names.filterMap (fun nm => ItemConfig.qsInput t nm) with
  | nil =>
    rw [hinp] at h
    exact Or.inl h
  | cons i0 rest =>
    rw [hinp] at h
    dsimp only at h
    cases hcl : Dom.closestWithClass t i0 "infobox" with
    | none =>
      rw [hcl] at h
      exact Or.inl h
    | some infobox =>
      rw [hcl] at h
      rcases mem_classesIn_processGroupWithInfobox _ _ _ _ _ _ c h with h1 | h1
      · rcases mem_classesIn_addClassId _ _ _ _ h1 with h2 | h2
        · exact Or.inl h2
        · exact Or.inr (Or.inl h2)
      · exact Or.inr (Or.inr h1)

theorem mem_classesIn_renderItemSheetHook (lang itemType : String) (t : Dom.DNode)
    (fresh : Nat) (c : String)
    (h : c ∈ Dom.classesInN (ItemConfig.renderItemSheetHook lang itemType t fresh).1) :
    c ∈ Dom.classesInN t ∨ c = ItemConfig.CLASS_INFOBOX ∨ c = ItemConfig.CLASS_LIST ∨
      c = ItemConfig.CLASS_ROW ∨ c = ItemConfig.CLASS_LABEL := by
  rw [ItemConfig.renderItemSheetHook] at h
  by_cases h1 : ¬ ItemConfig.isRu lang
  · rw [if_pos h1] at h
    exact Or.inl h
  · rw [if_neg h1] at h
    by_cases h2 : itemType == ""
    · rw [if_pos h2] at h
      exact Or.inl h
    · rw [if_neg h2] at h
      dsimp only at h
      by_cases h3 : itemType == "Armor"
      · rw [if_pos h3] at h
        rcases mem_classesIn_processGroup _ _ _ _ c h with h4 | h4
        · by_cases h5 : itemType == "Ranged Weapon"
          · rw [if_pos h5] at h4
            exact mem_classesIn_processGroup _ _ _ _ c h4
          · rw [if_neg h5] at h4
            exact Or.inl h4
        · exact Or.inr h4
      · rw [if_neg h3] at h
        by_cases h5 : itemType == "Ranged Weapon"
        · rw [if_pos h5] at h
          exact mem_classesIn_processGroup _ _ _ _ c h
        · rw [if_neg h5] at h
          exact Or.inl h

/-! ## C4: where the `langRU` marker class goes -/

theorem self_mem_addClassList (cs : List String) (c : String) :
    c ∈ Dom.addClassList cs c := by
  rw [Dom.addClassList]
  by_cases hc : cs.contains c
  · rw [if_pos hc]
    simpa using hc
  · rw [if_neg hc]
    exact List.mem_append.mpr (Or.inr (List.mem_singleton.mpr rfl))

theorem not_mem_removeClassList (cs : List String) (c : String) :
    c ∉ Dom.removeClassList cs c := by
  rw [Dom.removeClassList]
  intro h
  simpa using List.of_mem_filter h

/-- C4 (amended): when the UI language is `"ru"`, the `renderActorSheet`
handler adds `langRU` to the sheet root, and when it is not, `langRU` is not
on the root after the handler; the `renderItemSheet` handler adds no `langRU`
anywhere (it only restructures checkbox groups with the `wodru-*` classes). -/
theorem c4_langRU_marker_actor_sheets_only :
    ∀ (lang : String) (cs : List String),
      (lang = "ru" → "langRU" ∈ RuWidth.renderActorSheetHook lang cs) ∧
      (lang ≠ "ru" → "langRU" ∉ RuWidth.renderActorSheetHook lang cs) ∧
      (∀ (itemType : String) (t : Dom.DNode) (fresh : Nat),
        "langRU" ∉ Dom.classesInN t →
        "langRU" ∉ Dom.classesInN (ItemConfig.renderItemSheetHook lang itemType t fresh).1) := by
  intro lang cs
  refine ⟨?_, ?_, ?_⟩
  · intro h
    rw [RuWidth.renderActorSheetHook]
    rw [if_pos h]
    exact self_mem_addClassList cs _
  · intro h
    rw [RuWidth.renderActorSheetHook]
    rw [if_neg h]
    exact not_mem_removeClassList cs _
  · intro itemType t fresh hnot hmem
    rcases mem_classesIn_renderItemSheetHook lang itemType t fresh _ hmem with
      h1 | h1 | h1 | h1 | h1
    · exact hnot h1
    · exact absurd h1 (by decide)
    · exact absurd h1 (by decide)
    · exact absurd h1 (by decide)
    · exact absurd h1 (by decide)

/-- Witness for C4 at concrete inputs: RU adds the class on an actor sheet,
a non-RU language leaves none even when it was present, and an RU item-sheet
render of a fire-mode infobox introduces no `langRU`. -/
theorem c4_langRU_marker_actor_sheets_only_witness :
    "langRU" ∈ RuWidth.renderActorSheetHook "ru" ["window-app"] ∧
    "langRU" ∉ RuWidth.renderActorSheetHook "de" ["window-app", "langRU"] ∧
    "langRU" ∉ Dom.classesInN
      (ItemConfig.renderItemSheetHook "ru" "Ranged Weapon" ItemConfig.demoInfobox 10).1 := by
  refine ⟨?_, ?_, ?_⟩
  · exact (c4_langRU_marker_actor_sheets_only "ru" ["window-app"]).1 rfl
  · exact (c4_langRU_marker_actor_sheets_only "de" ["window-app", "langRU"]).2.1 (by decide)
  · exact (c4_langRU_marker_actor_sheets_only "ru" []).2.2 "Ranged Weapon"
      ItemConfig.demoInfobox 10 (by decide)

/-- Counterexample to C4 as stated: on an RU item-sheet render the handler
does process the sheet (the fire-mode wrapper div receives the
`wodru-checkbox-list` class), yet no `langRU` class is added anywhere in the
sheet DOM. -/
theorem c4_item_sheet_render_adds_no_langRU :
    Dom.classesOfId
        (ItemConfig.renderItemSheetHook "ru" "Ranged Weapon" ItemConfig.demoInfobox 10).1 3 =
      some ["wodru-checkbox-list"] ∧
    "langRU" ∉ Dom.classesInN
      (ItemConfig.renderItemSheetHook "ru" "Ranged Weapon" ItemConfig.demoInfobox 10).1 := by
  decide

/-! ## C6: idempotence of the render routines -/

theorem patchRow_idem (items : String → Option NotesLevel.LevelVal)
    (loc : String → String) (r : NotesLevel.NotesRow) :
    NotesLevel.patchRow items loc (NotesLevel.patchRow items loc r) =
      NotesLevel.patchRow items loc r := by
  by_cases h1 : r.patchedFlag
  · simp [NotesLevel.patchRow, h1]
  · by_cases h2 : r.itemId = ""
    · simp [NotesLevel.patchRow, h1, h2]
    · cases hi : items r.itemId with
      | none => simp [NotesLevel.patchRow, h1, h2, hi]
      | some raw =>
        by_cases h3 : r.hasCell
        · have hX : (NotesLevel.patchRow items loc r).patchedFlag = true := by
            simp [NotesLevel.patchRow, h1, h2, hi, h3]
          set X := NotesLevel.patchRow items loc r with hXdef
          simp [NotesLevel.patchRow, hX]
        · have hr : NotesLevel.patchRow items loc r = r := by
            simp [NotesLevel.patchRow, h1, h2, hi, h3]
          rw [hr]
          exact hr

theorem patchCombatRow_idem (env : Fulltext.HelperEnv)
    (items : String → Option Fulltext.FItem) (r : Fulltext.CombatRow) :
    Fulltext.patchCombatRow env items (Fulltext.patchCombatRow env items r) =
      Fulltext.patchCombatRow env items r := by
  by_cases h1 : r.fulltextApplied
  · simp [Fulltext.patchCombatRow, h1]
  · by_cases h2 : r.itemId = ""
    · simp [Fulltext.patchCombatRow, h1, h2]
    · cases hi : items r.itemId with
      | none => simp [Fulltext.patchCombatRow, h1, h2, hi]
      | some item =>
        by_cases h3 : r.hasDragRow
        · have hX : (Fulltext.patchCombatRow env items r).fulltextApplied = true := by
            simp [Fulltext.patchCombatRow, h1, h2, hi, h3]
          set X := Fulltext.patchCombatRow env items r with hXdef
          simp [Fulltext.patchCombatRow, hX]
        · have hr : Fulltext.patchCombatRow env items r = r := by
            simp [Fulltext.patchCombatRow, h1, h2, hi, h3]
          rw [hr]
          exact hr

/-- C6 (amended): the two dataset-marker routines are idempotent — running the
notes-level patch or the combat full-text patch a second time over rows it has
already processed changes nothing, because both skip rows carrying their
dataset marker and their skip paths leave rows untouched.  (The checkbox
routine of `item-config-checkboxes.js` is not idempotent; see the
counterexample.) -/
theorem c6_dataset_marker_routines_idempotent :
    (∀ (items : String → Option NotesLevel.LevelVal) (loc : String → String)
      (rows : List NotesLevel.NotesRow),
      NotesLevel.patch items loc (NotesLevel.patch items loc rows) =
        NotesLevel.patch items loc rows) ∧
    (∀ (env : Fulltext.HelperEnv) (items : String → Option Fulltext.FItem)
      (rows : List Fulltext.CombatRow),
      Fulltext.fulltextPatch env items (Fulltext.fulltextPatch env items rows) =
        Fulltext.fulltextPatch env items rows) := by
  constructor
  · intro items loc rows
    induction rows with
    | nil => rfl
    | cons r rs ih =>
      simp only [NotesLevel.patch, List.map_cons] at ih ⊢
      rw [patchRow_idem, ih]
  · intro env items rows
    induction rows with
    | nil => rfl
    | cons r rs ih =>
      simp only [Fulltext.fulltextPatch, List.map_cons] at ih ⊢
      rw [patchCombatRow_idem, ih]

/-- Counterexample to C6 as stated: re-running `processGroupByNames` on the
already-converted fire-mode infobox changes the DOM again — the second run
resolves the container to the row built by the first run (which does not
carry the `wodru-checkbox-list` marker) and restructures it, so the row node
gains the list class. -/
theorem c6_checkbox_routine_not_idempotent :
    Dom.classesOfId ItemConfig.demoTwice.1 10 ≠ Dom.classesOfId ItemConfig.demoOnce.1 10 := by
  decide

end WodRu
